import Mathlib

/-!
Verification of the job-queue core of a cluster virtualization manager
(`lib/jqueue.py`).  The data model and operations below are shallow
embeddings of the Python source: `_QueuedOpCode`, `_QueuedJob` (status and
priority derivation, serialization, cancellation), the dependency manager,
the opcode execution context, the submission path and queue persistence.
-/

namespace JQueue

/-- Opcode/job status.  Modelled from the spec: the status constants
(`constants.OP_STATUS_*` / `constants.JOB_STATUS_*`) live in a module that
is not part of the sources at hand; the spec gives both domains the same
seven values {QUEUED, WAITING, RUNNING, CANCELING, CANCELED, SUCCESS,
ERROR}, and in the original constants the corresponding opcode and job
string values coincide, so one enumeration serves both. -/
inductive Status where
  | queued
  | waiting
  | running
  | canceling
  | canceled
  | success
  | error
deriving DecidableEq, Repr

/-- Membership in `constants.OPS_FINALIZED` / `constants.JOBS_FINALIZED`:
the terminal set {CANCELED, SUCCESS, ERROR}. -/
def Status.isFinalized : Status → Bool
  | .canceled => true
  | .success => true
  | .error => true
  | _ => false

/-- Statuses on which `_QueuedJob.CalcStatus` breaks out of its scan. -/
def Status.isCancelErrorCanceled : Status → Bool
  | .canceling => true
  | .error => true
  | .canceled => true
  | _ => false

/-- Statuses that overwrite the running status without breaking the scan
(WAITING and RUNNING). -/
def Status.isWaitingOrRunning : Status → Bool
  | .waiting => true
  | .running => true
  | _ => false

/-- The loop of `_QueuedJob.CalcStatus` (`lib/jqueue.py`): `status` is the
accumulator (initially JOB_STATUS_QUEUED), `allSuccess` the `all_success`
flag.  On a break (CANCELING/ERROR/CANCELED) `all_success` has just been
set to `False`, so the final `if all_success` check cannot fire and the
function returns the status assigned at the breaking opcode. -/
def calcStatusLoop : List Status → Status → Bool → Status
  | [], status, allSuccess => if allSuccess then .success else status
  | op :: rest, status, allSuccess =>
    match op with
    | .success => calcStatusLoop rest status allSuccess
    | .queued => calcStatusLoop rest status false
    | .waiting => calcStatusLoop rest .waiting false
    | .running => calcStatusLoop rest .running false
    | .canceling => .canceling
    | .error => .error
    | .canceled => .canceled

/-- `_QueuedJob.CalcStatus`, as a function of the opcode statuses. -/
def CalcStatus (ops : List Status) : Status :=
  calcStatusLoop ops .queued true

/-- The last WAITING/RUNNING status of a list, if any ("the last opcode
with one of those statuses determines the job status"). -/
def lastActive : List Status → Option Status
  | [] => none
  | s :: rest =>
    match lastActive rest with
    | some x => some x
    | none => if s.isWaitingOrRunning then some s else none

/-- The spec's algorithm for the derived job status: first
CANCELING/ERROR/CANCELED opcode wins and stops the scan; otherwise the
last WAITING/RUNNING opcode wins; otherwise SUCCESS when every opcode
succeeded, QUEUED when not. -/
def specCalcStatus (ops : List Status) : Status :=
  match ops.find? Status.isCancelErrorCanceled with
  | some b => b
  | none =>
    match lastActive ops with
    | some s => s
    | none => if ops.all (· == Status.success) then .success else .queued

theorem calcStatusLoop_spec (ops : List Status) : ∀ (st : Status) (allS : Bool),
    calcStatusLoop ops st allS =
      match ops.find? Status.isCancelErrorCanceled with
      | some b => b
      | none =>
        match lastActive ops with
        | some s => s
        | none =>
          if allS && ops.all (· == Status.success) then Status.success else st := by
  induction ops with
  | nil => intro st allS; simp [calcStatusLoop, lastActive]
  | cons op rest ih =>
    intro st allS
    cases op <;>
      simp [calcStatusLoop, lastActive, List.find?, Status.isCancelErrorCanceled,
            Status.isWaitingOrRunning, ih] <;>
      cases rest.find? Status.isCancelErrorCanceled <;>
        simp <;> cases lastActive rest <;> simp

theorem CalcStatus_eq_spec (ops : List Status) : CalcStatus ops = specCalcStatus ops := by
  rw [CalcStatus, calcStatusLoop_spec, specCalcStatus]
  cases ops.find? Status.isCancelErrorCanceled <;>
    cases h : lastActive ops <;> simp [h]

theorem find?_eq_of_first {α : Type} {p : α → Bool} :
    ∀ (l : List α) (i : Nat) (hi : i < l.length),
      p (l.get ⟨i, hi⟩) = true →
      (∀ j (hj : j < l.length), j < i → p (l.get ⟨j, hj⟩) = false) →
      l.find? p = some (l.get ⟨i, hi⟩) := by
  intro l
  induction l with
  | nil => intro i hi; simp at hi
  | cons a t ih =>
    intro i hi hp hfirst
    cases i with
    | zero =>
      simp only [List.get] at hp
      simp [List.find?, hp]
    | succ k =>
      have ha : p a = false := hfirst 0 (by simp) (Nat.succ_pos k)
      simp only [List.find?, ha]
      exact ih k (Nat.lt_of_succ_lt_succ hi) hp
        (fun j hj hji => hfirst (j + 1) (Nat.succ_lt_succ hj) (Nat.succ_lt_succ hji))

theorem find?_eq_none_of_all {α : Type} {p : α → Bool} {l : List α}
    (h : ∀ x ∈ l, p x = false) : l.find? p = none := by
  induction l with
  | nil => rfl
  | cons a t ih =>
    have ha := h a (List.mem_cons_self a t)
    simp only [List.find?, ha]
    exact ih (fun x hx => h x (List.mem_cons_of_mem a hx))

theorem lastActive_eq_none_of_all {l : List Status}
    (h : ∀ x ∈ l, x.isWaitingOrRunning = false) : lastActive l = none := by
  induction l with
  | nil => rfl
  | cons a t ih =>
    have ha := h a (List.mem_cons_self a t)
    have ht := ih (fun x hx => h x (List.mem_cons_of_mem a hx))
    simp [lastActive, ht, ha]

theorem lastActive_eq_of_last :
    ∀ (l : List Status) (i : Nat) (hi : i < l.length),
      (l.get ⟨i, hi⟩).isWaitingOrRunning = true →
      (∀ j (hj : j < l.length), i < j → (l.get ⟨j, hj⟩).isWaitingOrRunning = false) →
      lastActive l = some (l.get ⟨i, hi⟩) := by
  intro l
  induction l with
  | nil => intro i hi; simp at hi
  | cons a t ih =>
    intro i hi hp hlast
    cases i with
    | zero =>
      simp only [List.get] at hp ⊢
      have ht : lastActive t = none := by
        apply lastActive_eq_none_of_all
        intro x hx
        obtain ⟨⟨j, hj⟩, hxj⟩ := List.mem_iff_get.mp hx
        have h2 := hlast (j + 1) (Nat.succ_lt_succ hj) (Nat.succ_pos j)
        rw [← hxj]
        simpa using h2
      simp [lastActive, ht, hp]
    | succ k =>
      have hk := Nat.lt_of_succ_lt_succ hi
      have ht : lastActive t = some (t.get ⟨k, hk⟩) :=
        ih k hk hp
          (fun j hj hji => hlast (j + 1) (Nat.succ_lt_succ hj) (Nat.succ_lt_succ hji))
      simp only [List.get]
      simp [lastActive, ht]

/-- **C1.**  For a job with a non-empty opcode list, `_QueuedJob.CalcStatus`
follows the spec's algorithm: (a) the scan stops at the first opcode whose
status is CANCELING, ERROR or CANCELED and returns that status (the job-
and opcode-status domains share these values); (b) when no opcode has such
a status, the last opcode whose status is WAITING or RUNNING determines
the result; (c) all-SUCCESS yields SUCCESS; (d) all-QUEUED yields QUEUED. -/
theorem calcStatus_follows_spec_algorithm (ops : List Status) (hne : ops ≠ []) :
    (∀ i (hi : i < ops.length),
        (ops.get ⟨i, hi⟩).isCancelErrorCanceled = true →
        (∀ j (hj : j < ops.length), j < i →
          (ops.get ⟨j, hj⟩).isCancelErrorCanceled = false) →
        CalcStatus ops = ops.get ⟨i, hi⟩) ∧
    ((∀ s ∈ ops, s.isCancelErrorCanceled = false) →
      ∀ i (hi : i < ops.length),
        (ops.get ⟨i, hi⟩).isWaitingOrRunning = true →
        (∀ j (hj : j < ops.length), i < j →
          (ops.get ⟨j, hj⟩).isWaitingOrRunning = false) →
        CalcStatus ops = ops.get ⟨i, hi⟩) ∧
    ((∀ s ∈ ops, s = Status.success) → CalcStatus ops = Status.success) ∧
    ((∀ s ∈ ops, s = Status.queued) → CalcStatus ops = Status.queued) := by
  refine ⟨?_, ?_, ?_, ?_⟩
  · intro i hi hp hfirst
    rw [CalcStatus_eq_spec, specCalcStatus, find?_eq_of_first ops i hi hp hfirst]
  · intro hnb i hi hp hlast
    have hfind : ops.find? Status.isCancelErrorCanceled = none :=
      find?_eq_none_of_all hnb
    have hla := lastActive_eq_of_last ops i hi hp hlast
    rw [CalcStatus_eq_spec, specCalcStatus, hfind, hla]
  · intro hall
    have hfind : ops.find? Status.isCancelErrorCanceled = none :=
      find?_eq_none_of_all (fun x hx => by
        rw [hall x hx]; rfl)
    have hla : lastActive ops = none :=
      lastActive_eq_none_of_all (fun x hx => by
        rw [hall x hx]; rfl)
    have hsucc : ops.all (· == Status.success) = true := by
      rw [List.all_eq_true]
      intro x hx
      simp [hall x hx]
    rw [CalcStatus_eq_spec, specCalcStatus, hfind, hla, hsucc]
    simp
  · intro hall
    have hfind : ops.find? Status.isCancelErrorCanceled = none :=
      find?_eq_none_of_all (fun x hx => by
        rw [hall x hx]; rfl)
    have hla : lastActive ops = none :=
      lastActive_eq_none_of_all (fun x hx => by
        rw [hall x hx]; rfl)
    have hnsucc : ops.all (· == Status.success) = false := by
      cases ops with
      | nil => exact absurd rfl hne
      | cons a t =>
        have ha := hall a (List.mem_cons_self a t)
        simp [List.all_cons, ha]
    rw [CalcStatus_eq_spec, specCalcStatus, hfind, hla, hnsucc]
    simp

/-- Witness for C1 at a concrete job: opcodes [SUCCESS, ERROR, QUEUED]
give job status ERROR (the first breaking opcode, index 1). -/
theorem calcStatus_follows_spec_algorithm_witness :
    CalcStatus [Status.success, Status.error, Status.queued] = Status.error := by
  have h := calcStatus_follows_spec_algorithm
    [Status.success, Status.error, Status.queued] (by decide)
  exact h.1 1 (by decide) rfl
    (fun j hj hji => by
      have hj0 : j = 0 := by omega
      subst hj0
      rfl)

/-! ## Data model: opcode and job records -/

/-- Timestamps are `(seconds, microseconds)` pairs (`TimeStampNow`). -/
abbrev Timestamp := Int × Int

/-- One log entry `(serial, timestamp, level, message)` of an opcode. -/
structure LogEntry where
  serial : Nat
  timestamp : Timestamp
  level : String
  message : String
deriving DecidableEq, Repr

/-- An opcode result: `None`, a plain string (as stored by
`MarkUnfinishedOps` on cancellation), an encoded error (`_EncodeOpError`),
or an opaque executor payload. -/
inductive OpResult where
  | nullResult
  | strMsg (s : String)
  | encodedError (s : String)
  | payload (n : Nat)
deriving DecidableEq, Repr

/-- Modelled from the spec: the priority constants (`constants.OP_PRIO_*`,
not part of the sources at hand).  Priorities are integers in
[HIGHEST..LOWEST] where lower numeric value means higher priority. -/
def OP_PRIO_HIGHEST : Int := -20

/-- Modelled from the spec: lowest (numerically largest) priority. -/
def OP_PRIO_LOWEST : Int := 19

/-- Modelled from the spec: the default opcode priority. -/
def OP_PRIO_DEFAULT : Int := 0

/-- Modelled from the spec: the set of priorities accepted at submission
time (`constants.OP_PRIO_SUBMIT_VALID`). -/
def OP_PRIO_SUBMIT_VALID : List Int := [-10, 0, 10]

/-- Modelled from the spec: the hard limit on the number of jobs in the
persistent queue (`constants.JOB_QUEUE_SIZE_HARD_LIMIT`). -/
def JOB_QUEUE_SIZE_HARD_LIMIT : Nat := 5000

/-- The externally defined opcode input (`opcodes.OpCode`) as far as the
queue consumes it: an optional `priority` attribute, an optional
`depends` list of `(job_id, allowed_statuses)` pairs, and an opaque rest.
Modelled from the spec for the parts outside the queue sources. -/
structure OpInput where
  priority : Option Int
  depends : Option (List (Int × List Status))
  payload : String
deriving DecidableEq, Repr

/-- `_QueuedOpCode`: an opcode together with its execution state. -/
structure OpCode where
  input : OpInput
  status : Status
  result : OpResult
  log : List LogEntry
  priority : Int
  start_timestamp : Option Timestamp
  exec_timestamp : Option Timestamp
  end_timestamp : Option Timestamp
deriving DecidableEq, Repr

/-- `_QueuedOpCode.__init__`: fresh opcode in status QUEUED with the
priority taken from the input (default when absent). -/
def OpCode.init (op : OpInput) : OpCode :=
  { input := op
    status := .queued
    result := .nullResult
    log := []
    priority := op.priority.getD OP_PRIO_DEFAULT
    start_timestamp := none
    exec_timestamp := none
    end_timestamp := none }

/-- `_QueuedJob`: the in-memory job representation (persistent fields plus
the `writable`/`archived` flags; the runtime-only cursor and lock are not
part of the value). -/
structure QueuedJob where
  id : Nat
  ops : List OpCode
  log_serial : Nat
  received_timestamp : Option Timestamp
  start_timestamp : Option Timestamp
  end_timestamp : Option Timestamp
  writable : Bool
  archived : Bool
deriving DecidableEq, Repr

/-- `_QueuedJob.CalcStatus` applied to a job record. -/
def QueuedJob.calcStatus (j : QueuedJob) : Status :=
  CalcStatus (j.ops.map (·.status))

/-- `_QueuedJob.CalcPriority`: the minimum priority over opcodes that are
not finalized; the default priority when every opcode is done. -/
def QueuedJob.CalcPriority (j : QueuedJob) : Int :=
  let priorities :=
    (j.ops.filter (fun op => !op.status.isFinalized)).map (·.priority)
  match priorities with
  | [] => OP_PRIO_DEFAULT
  | p :: rest => rest.foldl min p

/-- `JobQueue._EnqueueJobsUnlocked`: each job enters the worker pool as a
task whose priority is `CalcPriority` and whose task id is the job id. -/
def EnqueueJobsUnlocked (jobs : List QueuedJob) : List (QueuedJob × Int × Nat) :=
  jobs.map (fun job => (job, job.CalcPriority, job.id))

theorem foldl_min_le_init (l : List Int) : ∀ (a : Int), l.foldl min a ≤ a := by
  induction l with
  | nil => intro a; simp
  | cons x t ih =>
    intro a
    calc t.foldl min (min a x) ≤ min a x := ih (min a x)
    _ ≤ a := min_le_left a x

theorem foldl_min_le_mem (l : List Int) :
    ∀ (a x : Int), x ∈ l → l.foldl min a ≤ x := by
  induction l with
  | nil => intro a x hx; simp at hx
  | cons y t ih =>
    intro a x hx
    rcases List.mem_cons.mp hx with h | h
    · subst h
      calc t.foldl min (min a x) ≤ min a x := foldl_min_le_init t (min a x)
      _ ≤ x := min_le_right a x
    · exact ih (min a y) x h

theorem foldl_min_mem (l : List Int) :
    ∀ (a : Int), l.foldl min a = a ∨ l.foldl min a ∈ l := by
  induction l with
  | nil => intro a; simp
  | cons x t ih =>
    intro a
    simp only [List.foldl]
    rcases ih (min a x) with h | h
    · rcases min_choice a x with hm | hm
      · left; rw [h, hm]
      · right; rw [h, hm]; exact List.mem_cons_self x t
    · right; exact List.mem_cons_of_mem x h

/-- **C9.**  `_QueuedJob.CalcPriority` returns the default priority when
every opcode is finalized; otherwise it is the priority of some
non-finalized opcode and is a lower bound of all non-finalized opcode
priorities (i.e. the minimum).  `_EnqueueJobsUnlocked` enqueues every job
at exactly that priority. -/
theorem calcPriority_min_of_pending (j : QueuedJob) :
    ((∀ op ∈ j.ops, op.status.isFinalized = true) →
      j.CalcPriority = OP_PRIO_DEFAULT) ∧
    ((∃ op ∈ j.ops, op.status.isFinalized = false) →
      (∃ op ∈ j.ops, op.status.isFinalized = false ∧ j.CalcPriority = op.priority) ∧
      (∀ op ∈ j.ops, op.status.isFinalized = false → j.CalcPriority ≤ op.priority)) ∧
    (∀ jobs entry, entry ∈ EnqueueJobsUnlocked jobs →
      entry.2.1 = entry.1.CalcPriority ∧ entry.2.2 = entry.1.id) := by
  refine ⟨?_, ?_, ?_⟩
  · intro hall
    have hf : j.ops.filter (fun op => !op.status.isFinalized) = [] := by
      rw [List.filter_eq_nil_iff]
      intro op hop
      simp [hall op hop]
    simp [QueuedJob.CalcPriority, hf]
  · intro hex
    have hne : j.ops.filter (fun op => !op.status.isFinalized) ≠ [] := by
      obtain ⟨op, hop, hnf⟩ := hex
      intro hnil
      have : op ∈ j.ops.filter (fun op => !op.status.isFinalized) :=
        List.mem_filter.mpr ⟨hop, by simp [hnf]⟩
      simp [hnil] at this
    cases hfe : j.ops.filter (fun op => !op.status.isFinalized) with
    | nil => exact absurd hfe hne
    | cons q qs =>
      constructor
      · have hmem : j.CalcPriority ∈
            (j.ops.filter (fun op => !op.status.isFinalized)).map (·.priority) := by
          rw [hfe]
          simp only [QueuedJob.CalcPriority, hfe, List.map_cons]
          rcases foldl_min_mem (qs.map (·.priority)) q.priority with h | h
          · rw [h]; exact List.mem_cons_self _ _
          · exact List.mem_cons_of_mem _ h
        obtain ⟨op, hopf, hp⟩ := List.mem_map.mp hmem
        have hops := List.mem_filter.mp hopf
        exact ⟨op, hops.1, by simpa using hops.2, hp.symm⟩
      · intro op hop hnf
        have hmem : op.priority ∈
            (j.ops.filter (fun op => !op.status.isFinalized)).map (·.priority) :=
          List.mem_map.mpr ⟨op, List.mem_filter.mpr ⟨hop, by simp [hnf]⟩, rfl⟩
        rw [hfe, List.map_cons] at hmem
        simp only [QueuedJob.CalcPriority, hfe, List.map_cons]
        rcases List.mem_cons.mp hmem with h | h
        · rw [← h]
          exact foldl_min_le_init _ _
        · exact foldl_min_le_mem _ _ _ h
  · intro jobs entry hentry
    obtain ⟨job, hjob, hmap⟩ := List.mem_map.mp hentry
    subst hmap
    exact ⟨rfl, rfl⟩

/-- Witness for C9: a job with opcodes (SUCCESS, prio 3) and (QUEUED,
prio 7) has job priority 7, the priority of its only pending opcode. -/
theorem calcPriority_min_of_pending_witness :
    ({ id := 1
       ops := [{ OpCode.init { priority := some 3, depends := none, payload := "a" } with
                   status := Status.success },
               OpCode.init { priority := some 7, depends := none, payload := "b" }]
       log_serial := 0
       received_timestamp := none
       start_timestamp := none
       end_timestamp := none
       writable := true
       archived := false : QueuedJob }).CalcPriority = 7 := by
  have h := (calcPriority_min_of_pending
    { id := 1
      ops := [{ OpCode.init { priority := some 3, depends := none, payload := "a" } with
                  status := Status.success },
              OpCode.init { priority := some 7, depends := none, payload := "b" }]
      log_serial := 0
      received_timestamp := none
      start_timestamp := none
      end_timestamp := none
      writable := true
      archived := false }).2.1
  obtain ⟨⟨op, hop, hnf, hp⟩, hlb⟩ := h
    ⟨OpCode.init { priority := some 7, depends := none, payload := "b" },
     by simp [OpCode.init], by simp [OpCode.init, Status.isFinalized]⟩
  rw [hp]
  rcases List.mem_cons.mp hop with he | he
  · rw [he] at hnf
    simp [OpCode.init, Status.isFinalized] at hnf
  · have : op = OpCode.init { priority := some 7, depends := none, payload := "b" } := by
      simpa using he
    rw [this]
    rfl

/-! ## Cancellation -/

/-- `_QueuedJob.MarkUnfinishedOps`: set every opcode that is not yet
finalized to the given status and result; finalized opcodes are left
untouched. -/
def MarkUnfinishedOps (ops : List OpCode) (st : Status) (res : OpResult) : List OpCode :=
  ops.map (fun op =>
    if op.status.isFinalized then op
    else { op with status := st, result := res })

/-- `_QueuedJob.Finalize`: stamp the job's end timestamp. -/
def QueuedJob.Finalize (now : Timestamp) (j : QueuedJob) : QueuedJob :=
  { j with end_timestamp := some now }

/-- `_QueuedJob.Cancel`: cancel in place (and finalize) when the derived
status is QUEUED, mark CANCELING when it is WAITING, refuse otherwise. -/
def QueuedJob.Cancel (now : Timestamp) (job : QueuedJob) : (Bool × String) × QueuedJob :=
  let status := job.calcStatus
  if status = Status.queued then
    ((true, "Job " ++ toString job.id ++ " canceled"),
     QueuedJob.Finalize now
       { job with
           ops := MarkUnfinishedOps job.ops .canceled (.strMsg "Job canceled by request") })
  else if status = Status.waiting then
    ((true, "Job " ++ toString job.id ++ " will be canceled"),
     { job with ops := MarkUnfinishedOps job.ops .canceling .nullResult })
  else
    ((false, "Job " ++ toString job.id ++ " is no longer waiting in the queue"), job)

/-- `JobQueue.CancelJob` via `_ModifyJobUnlocked`: load the job (a missing
job yields `(False, "not found")`) and apply `_QueuedJob.Cancel`. -/
def CancelJob (now : Timestamp) (jobId : Nat) (loaded : Option QueuedJob) :
    (Bool × String) × Option QueuedJob :=
  match loaded with
  | none => ((false, "Job " ++ toString jobId ++ " not found"), none)
  | some job =>
    let r := QueuedJob.Cancel now job
    (r.1, some r.2)

/-- **C3.**  For an existing job, `CancelJob` never raises and behaves by
derived status: QUEUED — returns `(true, msg)`, every non-finalized
opcode becomes CANCELED, the end timestamp is set; WAITING — returns
`(true, msg)`, every non-finalized opcode becomes CANCELING, the end
timestamp is untouched; any other status — returns `(false, msg)` and the
job (opcode statuses, results, timestamps) is unchanged. -/
theorem cancelJob_by_derived_status (now : Timestamp) (job : QueuedJob) :
    (CancelJob now job.id (some job) =
      ((QueuedJob.Cancel now job).1, some (QueuedJob.Cancel now job).2)) ∧
    (job.calcStatus = Status.queued →
      (QueuedJob.Cancel now job).1.1 = true ∧
      (QueuedJob.Cancel now job).2.end_timestamp = some now ∧
      (QueuedJob.Cancel now job).2.ops.length = job.ops.length ∧
      (∀ i (hi : i < job.ops.length) (hi2 : i < (QueuedJob.Cancel now job).2.ops.length),
        (job.ops[i].status.isFinalized = true →
          (QueuedJob.Cancel now job).2.ops[i] = job.ops[i]) ∧
        (job.ops[i].status.isFinalized = false →
          (QueuedJob.Cancel now job).2.ops[i].status = Status.canceled))) ∧
    (job.calcStatus = Status.waiting →
      (QueuedJob.Cancel now job).1.1 = true ∧
      (QueuedJob.Cancel now job).2.end_timestamp = job.end_timestamp ∧
      (QueuedJob.Cancel now job).2.ops.length = job.ops.length ∧
      (∀ i (hi : i < job.ops.length) (hi2 : i < (QueuedJob.Cancel now job).2.ops.length),
        (job.ops[i].status.isFinalized = true →
          (QueuedJob.Cancel now job).2.ops[i] = job.ops[i]) ∧
        (job.ops[i].status.isFinalized = false →
          (QueuedJob.Cancel now job).2.ops[i].status = Status.canceling))) ∧
    (job.calcStatus ≠ Status.queued → job.calcStatus ≠ Status.waiting →
      (QueuedJob.Cancel now job).1.1 = false ∧
      (QueuedJob.Cancel now job).2 = job) := by
  refine ⟨rfl, ?_, ?_, ?_⟩
  · intro hst
    have hc : QueuedJob.Cancel now job =
        ((true, "Job " ++ toString job.id ++ " canceled"),
         QueuedJob.Finalize now
           { job with
               ops := MarkUnfinishedOps job.ops .canceled
                 (.strMsg "Job canceled by request") }) := by
      simp [QueuedJob.Cancel, hst]
    rw [hc]
    refine ⟨rfl, rfl, by simp [QueuedJob.Finalize, MarkUnfinishedOps], ?_⟩
    intro i hi hi2
    refine ⟨fun hfin => ?_, fun hnf => ?_⟩
    · simp [QueuedJob.Finalize, MarkUnfinishedOps, hfin]
    · simp [QueuedJob.Finalize, MarkUnfinishedOps, hnf]
  · intro hst
    have hq : job.calcStatus ≠ Status.queued := by rw [hst]; decide
    have hc : QueuedJob.Cancel now job =
        ((true, "Job " ++ toString job.id ++ " will be canceled"),
         { job with ops := MarkUnfinishedOps job.ops .canceling .nullResult }) := by
      simp [QueuedJob.Cancel, hst, hq]
    rw [hc]
    refine ⟨rfl, rfl, by simp [MarkUnfinishedOps], ?_⟩
    intro i hi hi2
    refine ⟨fun hfin => ?_, fun hnf => ?_⟩
    · simp [MarkUnfinishedOps, hfin]
    · simp [MarkUnfinishedOps, hnf]
  · intro hq hw
    have hc : QueuedJob.Cancel now job =
        ((false, "Job " ++ toString job.id ++ " is no longer waiting in the queue"),
         job) := by
      simp [QueuedJob.Cancel, hq, hw]
    rw [hc]
    exact ⟨rfl, rfl⟩

/-- Witness for C3: a job whose single opcode is RUNNING (derived status
RUNNING) is refused by `Cancel` and left unchanged. -/
theorem cancelJob_by_derived_status_witness :
    (QueuedJob.Cancel (0, 0)
      { id := 4
        ops := [{ OpCode.init { priority := none, depends := none, payload := "x" } with
                    status := Status.running }]
        log_serial := 0
        received_timestamp := none
        start_timestamp := none
        end_timestamp := none
        writable := true
        archived := false }).1.1 = false := by
  have h := (cancelJob_by_derived_status (0, 0)
    { id := 4
      ops := [{ OpCode.init { priority := none, depends := none, payload := "x" } with
                  status := Status.running }]
      log_serial := 0
      received_timestamp := none
      start_timestamp := none
      end_timestamp := none
      writable := true
      archived := false }).2.2.2
  exact (h (by decide) (by decide)).1

/-! ## Timeout strategy and priority increase -/

/-- `_TimeoutStrategyWrapper` as consumed by `CheckPriorityIncrease`: the
list of upcoming finite timeouts; `Peek` returns the next one without
consuming it, and an exhausted strategy peeks `None` (meaning the next
lock acquire would block without bound). -/
structure TimeoutStrategy where
  remaining : List Nat
deriving DecidableEq, Repr

/-- `_TimeoutStrategyWrapper.Peek`. -/
def TimeoutStrategy.peek (s : TimeoutStrategy) : Option Nat :=
  s.remaining.head?

/-- `_OpExecContext` as far as `CheckPriorityIncrease` consumes it: the
opcode's current priority and the current timeout strategy. -/
structure OpExecContext where
  opPriority : Int
  strategy : TimeoutStrategy
deriving DecidableEq, Repr

/-- `_OpExecContext.CheckPriorityIncrease`: when the timeout strategy is
exhausted and the opcode priority is still above `OP_PRIO_HIGHEST`,
decrement the priority (= raise it), install a fresh strategy from the
factory and return `True`; otherwise return `False` and change nothing. -/
def CheckPriorityIncrease (fresh : TimeoutStrategy) (ctx : OpExecContext) :
    Bool × OpExecContext :=
  if ctx.strategy.peek = none ∧ OP_PRIO_HIGHEST < ctx.opPriority then
    (true, { opPriority := ctx.opPriority - 1, strategy := fresh })
  else
    (false, ctx)

/-- **C4.**  `CheckPriorityIncrease` returns `True` exactly when
`Peek() = None` and the priority is strictly above the highest priority
constant; in that case the priority drops by exactly 1 and the timeout
strategy is reset; in every other case it returns `False` and the context
is unchanged. -/
theorem checkPriorityIncrease_decrements_iff (fresh : TimeoutStrategy) (ctx : OpExecContext) :
    ((CheckPriorityIncrease fresh ctx).1 = true ↔
      ctx.strategy.peek = none ∧ OP_PRIO_HIGHEST < ctx.opPriority) ∧
    ((CheckPriorityIncrease fresh ctx).1 = true →
      (CheckPriorityIncrease fresh ctx).2.opPriority = ctx.opPriority - 1 ∧
      (CheckPriorityIncrease fresh ctx).2.strategy = fresh) ∧
    ((CheckPriorityIncrease fresh ctx).1 = false →
      (CheckPriorityIncrease fresh ctx).2 = ctx) := by
  by_cases h : ctx.strategy.peek = none ∧ OP_PRIO_HIGHEST < ctx.opPriority
  · simp [CheckPriorityIncrease, h]
  · have h1 : CheckPriorityIncrease fresh ctx = (false, ctx) := by
      simp [CheckPriorityIncrease, h]
    rw [h1]
    exact ⟨⟨fun hf => absurd hf Bool.false_ne_true, fun hc => absurd hc h⟩,
           fun hf => absurd hf Bool.false_ne_true,
           fun _ => rfl⟩

/-- Witness for C4: an exhausted strategy with priority 5 triggers the
increase, yielding priority 4 and the fresh strategy. -/
theorem checkPriorityIncrease_decrements_iff_witness :
    (CheckPriorityIncrease { remaining := [2] }
        { opPriority := 5, strategy := { remaining := [] } }).1 = true ∧
    (CheckPriorityIncrease { remaining := [2] }
        { opPriority := 5, strategy := { remaining := [] } }).2.opPriority = 4 := by
  have h := checkPriorityIncrease_decrements_iff { remaining := [2] }
    { opPriority := 5, strategy := { remaining := [] } }
  have h1 : (CheckPriorityIncrease { remaining := [2] }
      { opPriority := 5, strategy := { remaining := [] } }).1 = true :=
    h.1.mpr ⟨by decide, by decide⟩
  exact ⟨h1, by simpa using (h.2.1 h1).1⟩

/-! ## Dependency manager -/

/-- The outcomes of `_JobDependencyManager.CheckAndRegister`. -/
inductive DepOutcome where
  | WAIT
  | ERROR
  | CANCEL
  | CONTINUE
  | WRONGSTATUS
deriving DecidableEq, Repr

/-- The dependency manager's waiter map `dep_job_id -> set of waiting
jobs` (job ids), total with empty default as `dict.setdefault` gives. -/
structure DepMgrState where
  waiters : Nat → List Nat

/-- Add a job id to a waiter set (`set.add`: no duplicates). -/
def addWaiterId (jid : Nat) (l : List Nat) : List Nat :=
  if jid ∈ l then l else jid :: l

/-- `_JobDependencyManager.CheckAndRegister`: reject self-dependencies,
reject unloadable dependencies, park the job while the dependency is not
finalized, then discharge it with CANCEL / CONTINUE / WRONGSTATUS
depending on the dependency's terminal status and the allowed list.
`getstatus` models the status-loading collaborator; `none` stands for a
`JobLost` error. -/
def CheckAndRegister (getstatus : Nat → Option Status) (st : DepMgrState)
    (jobId depId : Nat) (depStatus : List Status) :
    (DepOutcome × String) × DepMgrState :=
  if jobId = depId then
    ((.ERROR, "Job cannot depend on itself"), st)
  else
    match getstatus depId with
    | none => ((.ERROR, "Dependency error"), st)
    | some status =>
      if status.isFinalized = false then
        ((.WAIT, "Need to wait for job " ++ toString depId),
         { waiters := fun k =>
             if k = depId then addWaiterId jobId (st.waiters depId)
             else st.waiters k })
      else
        let st1 : DepMgrState :=
          { waiters := fun k =>
              if k = depId then (st.waiters depId).filter (fun x => x ≠ jobId)
              else st.waiters k }
        if status = Status.canceled ∧ Status.canceled ∉ depStatus then
          ((.CANCEL, "Dependency job " ++ toString depId ++ " was cancelled"), st1)
        else if depStatus = [] ∨ status ∈ depStatus then
          ((.CONTINUE, "Dependency job " ++ toString depId ++ " finished"), st1)
        else
          ((.WRONGSTATUS, "Dependency job " ++ toString depId ++
            " finished with wrong status"), st1)

/-- **C2.**  `CheckAndRegister` returns ERROR on a self-dependency and on
a failed status load; with a loaded status it returns WAIT and adds the
job to the dependency's waiter set while the status is not terminal;
for a terminal status it returns CANCEL when the dependency was CANCELED
and CANCELED is not allowed, CONTINUE when the allowed list is empty or
contains the status, and WRONGSTATUS otherwise (the cases applying in
this order, as in the source). -/
theorem checkAndRegister_outcomes (getstatus : Nat → Option Status)
    (st : DepMgrState) (jobId depId : Nat) (depStatus : List Status) :
    (jobId = depId →
      (CheckAndRegister getstatus st jobId depId depStatus).1.1 = DepOutcome.ERROR) ∧
    (jobId ≠ depId → getstatus depId = none →
      (CheckAndRegister getstatus st jobId depId depStatus).1.1 = DepOutcome.ERROR) ∧
    (∀ status, jobId ≠ depId → getstatus depId = some status →
      (status.isFinalized = false →
        (CheckAndRegister getstatus st jobId depId depStatus).1.1 = DepOutcome.WAIT ∧
        jobId ∈ (CheckAndRegister getstatus st jobId depId depStatus).2.waiters depId) ∧
      (status.isFinalized = true →
        (status = Status.canceled ∧ Status.canceled ∉ depStatus →
          (CheckAndRegister getstatus st jobId depId depStatus).1.1 = DepOutcome.CANCEL) ∧
        (¬(status = Status.canceled ∧ Status.canceled ∉ depStatus) →
          (depStatus = [] ∨ status ∈ depStatus) →
          (CheckAndRegister getstatus st jobId depId depStatus).1.1 = DepOutcome.CONTINUE) ∧
        (¬(status = Status.canceled ∧ Status.canceled ∉ depStatus) →
          ¬(depStatus = [] ∨ status ∈ depStatus) →
          (CheckAndRegister getstatus st jobId depId depStatus).1.1 =
            DepOutcome.WRONGSTATUS))) := by
  refine ⟨?_, ?_, ?_⟩
  · intro hself
    simp [CheckAndRegister, hself]
  · intro hne hload
    simp [CheckAndRegister, hne, hload]
  · intro status hne hload
    constructor
    · intro hnf
      constructor
      · simp [CheckAndRegister, hne, hload, hnf]
      · simp only [CheckAndRegister, if_neg hne, hload, hnf, if_pos rfl]
        simp [addWaiterId]
        by_cases hmem : jobId ∈ st.waiters depId
        · simp [hmem]
        · simp [hmem]
    · intro hfin
      have hnf : ¬(status.isFinalized = false) := by simp [hfin]
      refine ⟨?_, ?_, ?_⟩
      · intro hcancel
        simp [CheckAndRegister, hne, hload, hnf, hcancel, Status.isFinalized]
      · intro hnc hcont
        simp [CheckAndRegister, hne, hload, hnf, hnc, hcont]
      · intro hnc hncont
        simp [CheckAndRegister, hne, hload, hnf, hnc, hncont]

/-- Witness for C2: with the dependency job 7 in status RUNNING (not
terminal), job 3 gets outcome WAIT and is registered in the waiter set
of job 7. -/
theorem checkAndRegister_outcomes_witness :
    (CheckAndRegister (fun _ => some Status.running) { waiters := fun _ => [] }
        3 7 []).1.1 = DepOutcome.WAIT ∧
    3 ∈ (CheckAndRegister (fun _ => some Status.running) { waiters := fun _ => [] }
        3 7 []).2.waiters 7 := by
  have h := (checkAndRegister_outcomes (fun _ => some Status.running)
    { waiters := fun _ => [] } 3 7 []).2.2 Status.running (by decide) rfl
  exact (h.1 (by decide))

/-! ## Serialization -/

/-- The serialized form of a `_QueuedOpCode` (the dictionary written by
`_QueuedOpCode.Serialize`); `priority` is optional because
`_QueuedOpCode.Restore` defaults it when the key is absent. -/
structure OpCodeState where
  input : OpInput
  status : Status
  result : OpResult
  log : List LogEntry
  priority : Option Int
  start_timestamp : Option Timestamp
  exec_timestamp : Option Timestamp
  end_timestamp : Option Timestamp
deriving DecidableEq, Repr

/-- The serialized form of a `_QueuedJob`.  A stored `log_serial` field
may be present in hand-written state but is never emitted by `Serialize`
and is ignored by `Restore`. -/
structure JobState where
  id : Nat
  ops : List OpCodeState
  received_timestamp : Option Timestamp
  start_timestamp : Option Timestamp
  end_timestamp : Option Timestamp
  log_serial : Option Nat
deriving DecidableEq, Repr

/-- `_QueuedOpCode.Restore`. -/
def OpCode.Restore (s : OpCodeState) : OpCode :=
  { input := s.input
    status := s.status
    result := s.result
    log := s.log
    priority := s.priority.getD OP_PRIO_DEFAULT
    start_timestamp := s.start_timestamp
    exec_timestamp := s.exec_timestamp
    end_timestamp := s.end_timestamp }

/-- `_QueuedOpCode.Serialize`. -/
def OpCode.Serialize (op : OpCode) : OpCodeState :=
  { input := op.input
    status := op.status
    result := op.result
    log := op.log
    priority := some op.priority
    start_timestamp := op.start_timestamp
    exec_timestamp := op.exec_timestamp
    end_timestamp := op.end_timestamp }

/-- The `log_serial` recomputation of `_QueuedJob.Restore`: starting from
0, scan every restored opcode's log entries and keep the maximum serial. -/
def jobLogSerial (ops : List OpCodeState) : Nat :=
  ops.foldl (fun acc op => op.log.foldl (fun a e => max a e.serial) acc) 0

/-- `_QueuedJob.Restore`: rebuild the job from serialized state,
recomputing `log_serial` instead of trusting a stored value. -/
def QueuedJob.Restore (s : JobState) (writable archived : Bool) : QueuedJob :=
  { id := s.id
    ops := s.ops.map OpCode.Restore
    log_serial := jobLogSerial s.ops
    received_timestamp := s.received_timestamp
    start_timestamp := s.start_timestamp
    end_timestamp := s.end_timestamp
    writable := writable
    archived := archived }

/-- `_QueuedJob.Serialize`: only the persistent fields are emitted (in
particular no `log_serial`). -/
def QueuedJob.Serialize (j : QueuedJob) : JobState :=
  { id := j.id
    ops := j.ops.map OpCode.Serialize
    received_timestamp := j.received_timestamp
    start_timestamp := j.start_timestamp
    end_timestamp := j.end_timestamp
    log_serial := none }

theorem opcode_roundtrip (op : OpCodeState) (h : op.priority.isSome = true) :
    OpCode.Serialize (OpCode.Restore op) = op := by
  obtain ⟨inp, stt, res, lg, pri, t1, t2, t3⟩ := op
  obtain ⟨p, hp⟩ := Option.isSome_iff_exists.mp h
  simp only at hp
  subst hp
  simp [OpCode.Serialize, OpCode.Restore]

theorem le_foldl_max_serial (l : List LogEntry) :
    ∀ (acc : Nat), acc ≤ l.foldl (fun a e => max a e.serial) acc := by
  induction l with
  | nil => intro acc; simp
  | cons e t ih =>
    intro acc
    calc acc ≤ max acc e.serial := Nat.le_max_left acc e.serial
    _ ≤ t.foldl (fun a e => max a e.serial) (max acc e.serial) := ih _

theorem mem_le_foldl_max_serial (l : List LogEntry) :
    ∀ (acc : Nat) (e : LogEntry), e ∈ l →
      e.serial ≤ l.foldl (fun a e => max a e.serial) acc := by
  induction l with
  | nil => intro acc e he; simp at he
  | cons x t ih =>
    intro acc e he
    rcases List.mem_cons.mp he with h | h
    · subst h
      calc e.serial ≤ max acc e.serial := Nat.le_max_right acc e.serial
      _ ≤ t.foldl (fun a e => max a e.serial) (max acc e.serial) :=
        le_foldl_max_serial t _
    · exact ih _ e h

theorem foldl_max_serial_eq_or (l : List LogEntry) :
    ∀ (acc : Nat), l.foldl (fun a e => max a e.serial) acc = acc ∨
      ∃ e ∈ l, l.foldl (fun a e => max a e.serial) acc = e.serial := by
  induction l with
  | nil => intro acc; simp
  | cons x t ih =>
    intro acc
    simp only [List.foldl]
    rcases ih (max acc x.serial) with h | ⟨e, he, h⟩
    · rcases Nat.eq_or_lt_of_le (Nat.le_max_left acc x.serial) with hm | hm
      · left; rw [h, ← hm]
      · right
        refine ⟨x, List.mem_cons_self x t, ?_⟩
        rw [h]
        have := Nat.le_max_right acc x.serial
        omega
    · right; exact ⟨e, List.mem_cons_of_mem x he, h⟩

theorem le_jobLogSerialAux (ops : List OpCodeState) :
    ∀ (acc : Nat),
      acc ≤ ops.foldl (fun acc op => op.log.foldl (fun a e => max a e.serial) acc) acc := by
  induction ops with
  | nil => intro acc; simp
  | cons o t ih =>
    intro acc
    calc acc ≤ o.log.foldl (fun a e => max a e.serial) acc := le_foldl_max_serial _ _
    _ ≤ _ := ih _

theorem le_jobLogSerialAux2 (ops : List OpCodeState) :
    ∀ (acc acc2 : Nat), acc ≤ acc2 →
      acc ≤ ops.foldl (fun acc op => op.log.foldl (fun a e => max a e.serial) acc) acc2 := by
  induction ops with
  | nil => intro acc acc2 h; simpa using h
  | cons o t ih =>
    intro acc acc2 h
    exact ih acc _ (le_trans h (le_foldl_max_serial _ _))

theorem mem_le_jobLogSerialFold (ops : List OpCodeState) :
    ∀ (acc : Nat) (op : OpCodeState) (e : LogEntry), op ∈ ops → e ∈ op.log →
      e.serial ≤ ops.foldl (fun acc op => op.log.foldl (fun a e => max a e.serial) acc) acc := by
  induction ops with
  | nil => intro acc op e hop; simp at hop
  | cons o t ih =>
    intro acc op e hop he
    rcases List.mem_cons.mp hop with h | h
    · subst h
      exact le_jobLogSerialAux2 t _ _ (mem_le_foldl_max_serial op.log acc e he)
    · exact ih _ op e h he

theorem jobLogSerialFold_eq_or (ops : List OpCodeState) :
    ∀ (acc : Nat),
      ops.foldl (fun acc op => op.log.foldl (fun a e => max a e.serial) acc) acc = acc ∨
      ∃ op ∈ ops, ∃ e ∈ op.log,
        ops.foldl (fun acc op => op.log.foldl (fun a e => max a e.serial) acc) acc
          = e.serial := by
  induction ops with
  | nil => intro acc; simp
  | cons o t ih =>
    intro acc
    simp only [List.foldl]
    rcases ih (o.log.foldl (fun a e => max a e.serial) acc) with h | ⟨op, hop, e, he, h⟩
    · rcases foldl_max_serial_eq_or o.log acc with h2 | ⟨e, he, h2⟩
      · left; rw [h, h2]
      · right
        exact ⟨o, List.mem_cons_self o t, e, he, by rw [h, h2]⟩
    · right
      exact ⟨op, List.mem_cons_of_mem o hop, e, he, h⟩

/-- **C5.**  `Serialize` after `Restore` gives back every persistent
field of a well-formed serialized job state (id, per-opcode records
including input, status, result, log, priority and timestamps, and the
job timestamps), while `log_serial` is recomputed as the maximum
log-entry serial over all opcodes (0 when there are no entries),
regardless of any stored `log_serial` value. -/
theorem serialize_restore_roundtrip (s : JobState) (w a : Bool)
    (h : ∀ op ∈ s.ops, op.priority.isSome = true) :
    ((QueuedJob.Restore s w a).Serialize.id = s.id) ∧
    ((QueuedJob.Restore s w a).Serialize.ops = s.ops) ∧
    ((QueuedJob.Restore s w a).Serialize.received_timestamp = s.received_timestamp) ∧
    ((QueuedJob.Restore s w a).Serialize.start_timestamp = s.start_timestamp) ∧
    ((QueuedJob.Restore s w a).Serialize.end_timestamp = s.end_timestamp) ∧
    (∀ op ∈ s.ops, ∀ e ∈ op.log, e.serial ≤ (QueuedJob.Restore s w a).log_serial) ∧
    ((QueuedJob.Restore s w a).log_serial = 0 ∨
      ∃ op ∈ s.ops, ∃ e ∈ op.log, e.serial = (QueuedJob.Restore s w a).log_serial) := by
  refine ⟨rfl, ?_, rfl, rfl, rfl, ?_, ?_⟩
  · show (s.ops.map OpCode.Restore).map OpCode.Serialize = s.ops
    rw [List.map_map]
    have : ∀ op ∈ s.ops, (OpCode.Serialize ∘ OpCode.Restore) op = op := by
      intro op hop
      exact opcode_roundtrip op (h op hop)
    calc s.ops.map (OpCode.Serialize ∘ OpCode.Restore) = s.ops.map id :=
      List.map_congr_left this
    _ = s.ops := List.map_id s.ops
  · intro op hop e he
    exact mem_le_jobLogSerialFold s.ops 0 op e hop he
  · rcases jobLogSerialFold_eq_or s.ops 0 with h2 | ⟨op, hop, e, he, h2⟩
    · left; exact h2
    · right; exact ⟨op, hop, e, he, h2.symm⟩

/-- Witness for C5 at a concrete state: one opcode with priority 4 and a
log entry with serial 9; the round trip returns the ops unchanged. -/
theorem serialize_restore_roundtrip_witness :
    (QueuedJob.Restore
        { id := 11
          ops := [{ input := { priority := some 4, depends := none, payload := "p" }
                    status := Status.queued
                    result := OpResult.nullResult
                    log := [{ serial := 9, timestamp := (1, 2), level := "message"
                              message := "hello" }]
                    priority := some 4
                    start_timestamp := none
                    exec_timestamp := none
                    end_timestamp := none }]
          received_timestamp := some (0, 0)
          start_timestamp := none
          end_timestamp := none
          log_serial := some 42 } true false).Serialize.ops =
      [{ input := { priority := some 4, depends := none, payload := "p" }
         status := Status.queued
         result := OpResult.nullResult
         log := [{ serial := 9, timestamp := (1, 2), level := "message"
                   message := "hello" }]
         priority := some 4
         start_timestamp := none
         exec_timestamp := none
         end_timestamp := none }] := by
  have h := serialize_restore_roundtrip
    { id := 11
      ops := [{ input := { priority := some 4, depends := none, payload := "p" }
                status := Status.queued
                result := OpResult.nullResult
                log := [{ serial := 9, timestamp := (1, 2), level := "message"
                          message := "hello" }]
                priority := some 4
                start_timestamp := none
                exec_timestamp := none
                end_timestamp := none }]
      received_timestamp := some (0, 0)
      start_timestamp := none
      end_timestamp := none
      log_serial := some 42 } true false
    (by intro op hop; simp at hop; subst hop; rfl)
  exact h.2.1

/-! ## Job submission -/

/-- The submission-time errors of the queue facade. -/
inductive SubmitError where
  | JobQueueDrainError
  | JobQueueShutdownError
  | JobQueueFull
  | GenericError (msg : String)
deriving DecidableEq, Repr

/-- The queue state as far as submission consumes it: the drain flag, the
accepting-jobs flag, and the persistent queue size. -/
structure QueueState where
  drained : Bool
  accepting_jobs : Bool
  queue_size : Nat
deriving DecidableEq, Repr

/-- `_QueuedJob.__init__`: a job with no opcodes raises GenericError
before any state is initialized; otherwise all fields are fresh and every
opcode starts QUEUED. -/
def QueuedJob.init (jobId : Nat) (ops : List OpInput) (now : Timestamp)
    (writable : Bool) : Except SubmitError QueuedJob :=
  if ops.isEmpty then
    .error (.GenericError "A job needs at least one opcode")
  else
    .ok { id := jobId
          ops := ops.map OpCode.init
          log_serial := 0
          received_timestamp := some now
          start_timestamp := none
          end_timestamp := none
          writable := writable
          archived := false }

/-- Modelled from the spec: `opcodes_base.TNoRelativeJobDependencies`
(the opcodes module is not part of the sources at hand).  A well-formed
dependency list pairs an absolute (non-negative) job id with a list of
terminal job statuses; an absent attribute passes. -/
def TNoRelativeJobDependencies (deps : Option (List (Int × List Status))) : Bool :=
  match deps with
  | none => true
  | some l => l.all (fun d => decide (0 ≤ d.1) && d.2.all Status.isFinalized)

/-- The per-opcode validation loop of `_SubmitJobUnlocked`: for each
opcode, in order, first the priority has to be in the valid submission
set, then the dependency list has to be well-formed. -/
def findSubmitDefect : List OpInput → Option SubmitError
  | [] => none
  | op :: rest =>
    if (op.priority.getD OP_PRIO_DEFAULT) ∉ OP_PRIO_SUBMIT_VALID then
      some (.GenericError "invalid priority")
    else if TNoRelativeJobDependencies op.depends = false then
      some (.GenericError "invalid dependencies")
    else findSubmitDefect rest

/-- `JobQueue._SubmitJobUnlocked`: hard-limit check, job construction,
per-opcode validation; on success the queue size grows by one. -/
def SubmitJobUnlocked (st : QueueState) (jobId : Nat) (ops : List OpInput)
    (now : Timestamp) : Except SubmitError (QueuedJob × QueueState) :=
  if JOB_QUEUE_SIZE_HARD_LIMIT ≤ st.queue_size then
    .error .JobQueueFull
  else
    match QueuedJob.init jobId ops now true with
    | .error e => .error e
    | .ok job =>
      match findSubmitDefect ops with
      | some e => .error e
      | none => .ok (job, { st with queue_size := st.queue_size + 1 })

/-- `JobQueue.SubmitJob` with its `_RequireNonDrainedQueue` decorator: a
drained queue rejects first, a queue that stopped accepting jobs second,
then `_SubmitJobUnlocked` runs with a freshly allocated job id. -/
def SubmitJob (st : QueueState) (jobId : Nat) (ops : List OpInput)
    (now : Timestamp) : Except SubmitError (Nat × QueueState) :=
  if st.drained then .error .JobQueueDrainError
  else if st.accepting_jobs = false then .error .JobQueueShutdownError
  else
    match SubmitJobUnlocked st jobId ops now with
    | .error e => .error e
    | .ok (job, st2) => .ok (job.id, st2)

/-- **C6 (amended).**  `SubmitJob` raises `JobQueueDrainError` when the
drain flag is set, the shutting-down error when the queue stopped
accepting jobs, `JobQueueFull` at or above the hard limit, and a
`GenericError` when some opcode has an invalid submission priority or a
malformed dependency list — and also when the opcode list is empty; when
none of these preconditions hold (so in particular the opcode list is
non-empty) it returns the fresh job id and the queue size grows by one. -/
theorem submitJob_error_classes (st : QueueState) (jobId : Nat)
    (ops : List OpInput) (now : Timestamp) :
    (st.drained = true →
      SubmitJob st jobId ops now = .error .JobQueueDrainError) ∧
    (st.drained = false → st.accepting_jobs = false →
      SubmitJob st jobId ops now = .error .JobQueueShutdownError) ∧
    (st.drained = false → st.accepting_jobs = true →
      JOB_QUEUE_SIZE_HARD_LIMIT ≤ st.queue_size →
      SubmitJob st jobId ops now = .error .JobQueueFull) ∧
    (st.drained = false → st.accepting_jobs = true →
      st.queue_size < JOB_QUEUE_SIZE_HARD_LIMIT → ops = [] →
      SubmitJob st jobId ops now =
        .error (.GenericError "A job needs at least one opcode")) ∧
    (st.drained = false → st.accepting_jobs = true →
      st.queue_size < JOB_QUEUE_SIZE_HARD_LIMIT → ops ≠ [] →
      (∀ e, findSubmitDefect ops = some e → ∃ m, e = .GenericError m) ∧
      (∀ e, findSubmitDefect ops = some e →
        SubmitJob st jobId ops now = .error e) ∧
      (findSubmitDefect ops = none →
        SubmitJob st jobId ops now =
          .ok (jobId, { st with queue_size := st.queue_size + 1 }))) := by
  refine ⟨?_, ?_, ?_, ?_, ?_⟩
  · intro hd
    simp [SubmitJob, hd]
  · intro hd ha
    simp [SubmitJob, hd, ha]
  · intro hd ha hfull
    simp [SubmitJob, SubmitJobUnlocked, hd, ha, hfull]
  · intro hd ha hroom hempty
    subst hempty
    simp [SubmitJob, SubmitJobUnlocked, QueuedJob.init, hd, ha,
          Nat.not_le_of_lt hroom]
  · intro hd ha hroom hne
    have hnfull : ¬ JOB_QUEUE_SIZE_HARD_LIMIT ≤ st.queue_size :=
      Nat.not_le_of_lt hroom
    have hinit : QueuedJob.init jobId ops now true =
        .ok { id := jobId
              ops := ops.map OpCode.init
              log_serial := 0
              received_timestamp := some now
              start_timestamp := none
              end_timestamp := none
              writable := true
              archived := false } := by
      simp [QueuedJob.init, hne]
    refine ⟨?_, ?_, ?_⟩
    · intro e he
      clear hinit
      induction ops with
      | nil => simp [findSubmitDefect] at he
      | cons op rest ih =>
        by_cases hp : (op.priority.getD OP_PRIO_DEFAULT) ∉ OP_PRIO_SUBMIT_VALID
        · rw [findSubmitDefect, if_pos hp] at he
          exact ⟨"invalid priority", (Option.some_injective _ he).symm⟩
        · rw [findSubmitDefect, if_neg hp] at he
          by_cases hdep : TNoRelativeJobDependencies op.depends = false
          · rw [if_pos hdep] at he
            exact ⟨"invalid dependencies", (Option.some_injective _ he).symm⟩
          · rw [if_neg hdep] at he
            cases rest with
            | nil => simp [findSubmitDefect] at he
            | cons y ys => exact ih (by simp) he
    · intro e he
      simp [SubmitJob, SubmitJobUnlocked, hd, ha, hnfull, hinit, he]
    · intro hnone
      simp [SubmitJob, SubmitJobUnlocked, hd, ha, hnfull, hinit, hnone]

/-- Counterexample for C6 as stated: with the queue not drained, still
accepting jobs, far below the hard limit, and an empty opcode list (so no
opcode with a bad priority and no malformed dependency list exists),
`SubmitJob` nonetheless raises GenericError instead of returning a fresh
job id. -/
theorem submitJob_empty_ops_counterexample :
    ({ drained := false, accepting_jobs := true, queue_size := 0 } :
        QueueState).drained = false ∧
    ({ drained := false, accepting_jobs := true, queue_size := 0 } :
        QueueState).accepting_jobs = true ∧
    ({ drained := false, accepting_jobs := true, queue_size := 0 } :
        QueueState).queue_size < JOB_QUEUE_SIZE_HARD_LIMIT ∧
    SubmitJob { drained := false, accepting_jobs := true, queue_size := 0 }
        1 [] (0, 0) =
      .error (.GenericError "A job needs at least one opcode") := by
  refine ⟨rfl, rfl, by decide, rfl⟩

/-- Witness for C6: a valid single-opcode submission (priority 0, no
dependencies) to an open, empty queue yields the fresh job id and queue
size 1. -/
theorem submitJob_error_classes_witness :
    SubmitJob { drained := false, accepting_jobs := true, queue_size := 0 }
        5 [{ priority := some 0, depends := none, payload := "noop" }] (0, 0) =
      .ok (5, { drained := false, accepting_jobs := true, queue_size := 1 }) := by
  have h := (submitJob_error_classes
    { drained := false, accepting_jobs := true, queue_size := 0 } 5
    [{ priority := some 0, depends := none, payload := "noop" }] (0, 0)).2.2.2.2
    rfl rfl (by decide) (by simp)
  exact h.2.2 rfl

/-- **C10.**  Constructing a job with an empty opcode list raises
GenericError, so `SubmitJob` with zero opcodes never succeeds (the error
carries no new queue state, so no size increase happens), and every job
the constructor does produce has at least one opcode. -/
theorem emptyJob_rejected (jobId : Nat) (now : Timestamp) (w : Bool) :
    (QueuedJob.init jobId [] now w =
      .error (.GenericError "A job needs at least one opcode")) ∧
    (∀ st, ∃ e, SubmitJob st jobId [] now = .error e) ∧
    (∀ ops j, QueuedJob.init jobId ops now w = .ok j → j.ops ≠ []) := by
  refine ⟨rfl, ?_, ?_⟩
  · intro st
    by_cases hd : st.drained
    · exact ⟨.JobQueueDrainError, by simp [SubmitJob, hd]⟩
    · by_cases ha : st.accepting_jobs
      · by_cases hfull : JOB_QUEUE_SIZE_HARD_LIMIT ≤ st.queue_size
        · exact ⟨.JobQueueFull,
            by simp [SubmitJob, SubmitJobUnlocked, hd, ha, hfull]⟩
        · exact ⟨.GenericError "A job needs at least one opcode",
            by simp [SubmitJob, SubmitJobUnlocked, QueuedJob.init, hd, ha, hfull]⟩
      · exact ⟨.JobQueueShutdownError,
          by simp [SubmitJob, hd, ha]⟩
  · intro ops j hok
    cases ops with
    | nil => simp [QueuedJob.init] at hok
    | cons op rest =>
      have hj : j.ops = OpCode.init op :: rest.map OpCode.init := by
        simp [QueuedJob.init] at hok
        rw [← hok]
      simp [hj]

/-- Witness for C10: at the empty opcode list, `SubmitJob` on an open
queue fails (with some submission error). -/
theorem emptyJob_rejected_witness :
    ∃ e, SubmitJob { drained := false, accepting_jobs := true, queue_size := 0 }
        9 [] (0, 0) = .error e := by
  exact (emptyJob_rejected 9 (0, 0) true).2.1
    { drained := false, accepting_jobs := true, queue_size := 0 }

/-! ## Job processor: the post-execution step -/

/-- In-place update of a single list position (the Python code mutates
`job.ops[idx]`). -/
def modifyAt {α : Type} : List α → Nat → (α → α) → List α
  | [], _, _ => []
  | x :: t, 0, f => f x :: t
  | x :: t, Nat.succ k, f => x :: modifyAt t k f

theorem modifyAt_length {α : Type} :
    ∀ (l : List α) (i : Nat) (f : α → α), (modifyAt l i f).length = l.length := by
  intro l
  induction l with
  | nil => intro i f; rfl
  | cons x t ih =>
    intro i f
    cases i with
    | zero => rfl
    | succ k => simp [modifyAt, ih]

theorem getElem_modifyAt_ne {α : Type} :
    ∀ (l : List α) (i k : Nat) (f : α → α) (hk : k < l.length)
      (hk2 : k < (modifyAt l i f).length), k ≠ i →
      (modifyAt l i f)[k] = l[k] := by
  intro l
  induction l with
  | nil => intro i k f hk; simp at hk
  | cons x t ih =>
    intro i k f hk hk2 hne
    cases i with
    | zero =>
      cases k with
      | zero => exact absurd rfl hne
      | succ m => simp [modifyAt]
    | succ j =>
      cases k with
      | zero => simp [modifyAt]
      | succ m =>
        simp only [modifyAt, List.getElem_cons_succ]
        exact ih j m f (Nat.lt_of_succ_lt_succ hk)
          (by simpa [modifyAt] using Nat.lt_of_succ_lt_succ hk2)
          (fun h => hne (by rw [h]))

theorem getElem_modifyAt_eq {α : Type} :
    ∀ (l : List α) (i : Nat) (f : α → α) (hi : i < l.length)
      (hi2 : i < (modifyAt l i f).length),
      (modifyAt l i f)[i] = f l[i] := by
  intro l
  induction l with
  | nil => intro i f hi; simp at hi
  | cons x t ih =>
    intro i f hi hi2
    cases i with
    | zero => simp [modifyAt]
    | succ j =>
      simp only [modifyAt, List.getElem_cons_succ]
      exact ih j f (Nat.lt_of_succ_lt_succ hi)
        (by simpa [modifyAt] using Nat.lt_of_succ_lt_succ hi2)

/-- The return values of `_JobProcessor.__call__`. -/
inductive ProcResult where
  | DEFER
  | WAITDEP
  | FINISHED
deriving DecidableEq, Repr

/-- The tail of `_JobProcessor.__call__` for an executed opcode: store the
executor outcome into the opcode, stamp its end timestamp unless it is
back to WAITING/QUEUED, then on ERROR propagate "Preceding opcode failed"
to all unfinished opcodes and finalize, on CANCELING mark the rest
CANCELED and finalize, on SUCCESS finalize only after the last opcode;
FINISHED is returned exactly when the job was finalized. -/
def afterExec (now : Timestamp) (job : QueuedJob) (idx : Nat)
    (opStatus : Status) (opResult : OpResult) : ProcResult × QueuedJob :=
  let job1 := { job with
      ops := modifyAt job.ops idx
        (fun op => { op with status := opStatus, result := opResult }) }
  if opStatus = Status.waiting ∨ opStatus = Status.queued then
    (ProcResult.DEFER, job1)
  else
    let job2 := { job1 with
        ops := modifyAt job1.ops idx
          (fun op => { op with end_timestamp := some now }) }
    let fj :=
      if opStatus = Status.error then
        (true, { job2 with
            ops := MarkUnfinishedOps job2.ops .error
              (.encodedError "Preceding opcode failed") })
      else if opStatus = Status.canceling then
        (true, { job2 with
            ops := MarkUnfinishedOps job2.ops .canceled
              (.strMsg "Job canceled by request") })
      else
        (false, job2)
    let finalize := fj.1 ∨ idx = job.ops.length - 1
    let job4 := if finalize then QueuedJob.Finalize now fj.2 else fj.2
    (if finalize then ProcResult.FINISHED else ProcResult.DEFER, job4)

/-- **C7.**  When the processor observes the current opcode finish with
ERROR, it returns FINISHED, the job's end timestamp is set, every other
opcode that was not yet finalized is set to ERROR with the encoded
"Preceding opcode failed" result, and every already-finalized opcode is
left entirely unchanged. -/
theorem opcodeError_propagates (now : Timestamp) (job : QueuedJob) (idx : Nat)
    (res : OpResult) :
    ((afterExec now job idx Status.error res).1 = ProcResult.FINISHED) ∧
    ((afterExec now job idx Status.error res).2.end_timestamp = some now) ∧
    ((afterExec now job idx Status.error res).2.ops.length = job.ops.length) ∧
    (∀ k (hk : k < job.ops.length)
        (hk2 : k < (afterExec now job idx Status.error res).2.ops.length),
      k ≠ idx →
      (job.ops[k].status.isFinalized = true →
        (afterExec now job idx Status.error res).2.ops[k] = job.ops[k]) ∧
      (job.ops[k].status.isFinalized = false →
        (afterExec now job idx Status.error res).2.ops[k].status = Status.error ∧
        (afterExec now job idx Status.error res).2.ops[k].result =
          OpResult.encodedError "Preceding opcode failed")) := by
  have hne : ¬(Status.error = Status.waiting ∨ Status.error = Status.queued) := by
    decide
  have hc : afterExec now job idx Status.error res =
      (ProcResult.FINISHED,
       QueuedJob.Finalize now
         { job with
             ops := MarkUnfinishedOps
               (modifyAt
                 (modifyAt job.ops idx
                   (fun op => { op with status := Status.error, result := res }))
                 idx (fun op => { op with end_timestamp := some now }))
               .error (.encodedError "Preceding opcode failed") }) := by
    simp [afterExec, hne]
  rw [hc]
  refine ⟨rfl, rfl, by simp [QueuedJob.Finalize, MarkUnfinishedOps, modifyAt_length], ?_⟩
  intro k hk hk2 hkidx
  have hk3 : k < (modifyAt job.ops idx
      (fun op => { op with status := Status.error, result := res })).length := by
    rw [modifyAt_length]; exact hk
  have hk4 : k < (modifyAt
      (modifyAt job.ops idx
        (fun op => { op with status := Status.error, result := res }))
      idx (fun op => { op with end_timestamp := some now })).length := by
    rw [modifyAt_length, modifyAt_length]; exact hk
  have hgk : (modifyAt
      (modifyAt job.ops idx
        (fun op => { op with status := Status.error, result := res }))
      idx (fun op => { op with end_timestamp := some now }))[k] = job.ops[k] := by
    rw [getElem_modifyAt_ne _ idx k _ hk3 hk4 hkidx,
        getElem_modifyAt_ne _ idx k _ hk hk3 hkidx]
  constructor
  · intro hfin
    simp only [QueuedJob.Finalize, MarkUnfinishedOps]
    rw [List.getElem_map, hgk, if_pos hfin]
  · intro hnf
    simp only [QueuedJob.Finalize, MarkUnfinishedOps]
    rw [List.getElem_map, hgk, if_neg (by simp [hnf])]
    exact ⟨rfl, rfl⟩

/-- Witness for C7: a two-opcode job [SUCCESS, WAITING] whose second
opcode fails: the processor finishes the job, the finalized first opcode
is untouched, and the job end timestamp is stamped. -/
theorem opcodeError_propagates_witness :
    ((afterExec (3, 4)
        { id := 2
          ops := [{ OpCode.init { priority := some 0, depends := none, payload := "a" } with
                      status := Status.success },
                  { OpCode.init { priority := some 0, depends := none, payload := "b" } with
                      status := Status.waiting }]
          log_serial := 0
          received_timestamp := some (0, 0)
          start_timestamp := some (1, 1)
          end_timestamp := none
          writable := true
          archived := false } 1 Status.error
        (OpResult.encodedError "boom")).1 = ProcResult.FINISHED) ∧
    ((afterExec (3, 4)
        { id := 2
          ops := [{ OpCode.init { priority := some 0, depends := none, payload := "a" } with
                      status := Status.success },
                  { OpCode.init { priority := some 0, depends := none, payload := "b" } with
                      status := Status.waiting }]
          log_serial := 0
          received_timestamp := some (0, 0)
          start_timestamp := some (1, 1)
          end_timestamp := none
          writable := true
          archived := false } 1 Status.error
        (OpResult.encodedError "boom")).2.end_timestamp = some (3, 4)) := by
  have h := opcodeError_propagates (3, 4)
    { id := 2
      ops := [{ OpCode.init { priority := some 0, depends := none, payload := "a" } with
                  status := Status.success },
              { OpCode.init { priority := some 0, depends := none, payload := "b" } with
                  status := Status.waiting }]
      log_serial := 0
      received_timestamp := some (0, 0)
      start_timestamp := some (1, 1)
      end_timestamp := none
      writable := true
      archived := false } 1 (OpResult.encodedError "boom")
  exact ⟨h.1, h.2.1⟩

/-! ## Persistence invariant: helper lemmas -/

theorem lastActive_some :
    ∀ (l : List Status) (s : Status), lastActive l = some s →
      s ∈ l ∧ s.isWaitingOrRunning = true := by
  intro l
  induction l with
  | nil => intro s h; simp [lastActive] at h
  | cons a t ih =>
    intro s h
    rw [lastActive] at h
    cases ht : lastActive t with
    | some x =>
      rw [ht] at h
      obtain ⟨hm, hw⟩ := ih x ht
      cases h
      exact ⟨List.mem_cons_of_mem a hm, hw⟩
    | none =>
      rw [ht] at h
      by_cases ha : a.isWaitingOrRunning
      · rw [if_pos ha] at h
        cases h
        exact ⟨List.mem_cons_self a t, ha⟩
      · rw [if_neg ha] at h
        cases h

theorem lastActive_none_forall :
    ∀ (l : List Status), lastActive l = none →
      ∀ x ∈ l, x.isWaitingOrRunning = false := by
  intro l
  induction l with
  | nil => intro h x hx; simp at hx
  | cons a t ih =>
    intro h x hx
    rw [lastActive] at h
    cases ht : lastActive t with
    | some y => rw [ht] at h; cases h
    | none =>
      rw [ht] at h
      by_cases ha : a.isWaitingOrRunning
      · rw [if_pos ha] at h; cases h
      · rw [if_neg ha] at h
        rcases List.mem_cons.mp hx with hxa | hxt
        · subst hxa; simpa using ha
        · exact ih ht x hxt

theorem calcStatus_all_success (l : List Status)
    (h : ∀ x ∈ l, x = Status.success) : CalcStatus l = Status.success := by
  rw [CalcStatus_eq_spec, specCalcStatus]
  have hf : l.find? Status.isCancelErrorCanceled = none :=
    find?_eq_none_of_all (fun x hx => by rw [h x hx]; rfl)
  have hl : lastActive l = none :=
    lastActive_eq_none_of_all (fun x hx => by rw [h x hx]; rfl)
  have ha : l.all (· == Status.success) = true := by
    rw [List.all_eq_true]
    intro x hx
    simp [h x hx]
  rw [hf, hl, ha]
  simp

theorem calcStatus_finalized_of_all (l : List Status)
    (h : ∀ x ∈ l, x.isFinalized = true) : (CalcStatus l).isFinalized = true := by
  rw [CalcStatus_eq_spec, specCalcStatus]
  cases hf : l.find? Status.isCancelErrorCanceled with
  | some b =>
    exact h b (List.mem_of_find?_eq_some hf)
  | none =>
    cases hl : lastActive l with
    | some s =>
      obtain ⟨hm, hw⟩ := lastActive_some l s hl
      have := h s hm
      cases s <;> simp_all [Status.isWaitingOrRunning, Status.isFinalized]
    | none =>
      have ha : l.all (· == Status.success) = true := by
        rw [List.all_eq_true]
        intro x hx
        have h1 := h x hx
        have h2 := List.find?_eq_none.mp hf x hx
        cases x <;> simp_all [Status.isFinalized, Status.isCancelErrorCanceled]
      rw [ha]
      simp [Status.isFinalized]

theorem calcStatus_not_finalized (l : List Status)
    (h1 : ∀ x ∈ l, x ≠ Status.error ∧ x ≠ Status.canceled)
    (h2 : ∃ x ∈ l, x ≠ Status.success) :
    (CalcStatus l).isFinalized = false := by
  rw [CalcStatus_eq_spec, specCalcStatus]
  cases hf : l.find? Status.isCancelErrorCanceled with
  | some b =>
    have hb := List.find?_some hf
    have hbm := List.mem_of_find?_eq_some hf
    have hne := h1 b hbm
    cases b <;> simp_all [Status.isCancelErrorCanceled, Status.isFinalized]
  | none =>
    cases hl : lastActive l with
    | some s =>
      obtain ⟨hm, hw⟩ := lastActive_some l s hl
      cases s <;> simp_all [Status.isWaitingOrRunning, Status.isFinalized]
    | none =>
      obtain ⟨x, hx, hxs⟩ := h2
      have ha : l.all (· == Status.success) = false := by
        rw [List.all_eq_false]
        refine ⟨x, hx, by simp [hxs]⟩
      rw [ha]
      simp [Status.isFinalized]

theorem no_break_of_calcStatus (l : List Status)
    (h : (CalcStatus l).isCancelErrorCanceled = false) :
    ∀ x ∈ l, x.isCancelErrorCanceled = false := by
  intro x hx
  by_contra hb
  rw [Bool.not_eq_false] at hb
  cases hf : l.find? Status.isCancelErrorCanceled with
  | none =>
    exact absurd hb (by simpa using List.find?_eq_none.mp hf x hx)
  | some b =>
    have hbb := List.find?_some hf
    have : CalcStatus l = b := by
      rw [CalcStatus_eq_spec, specCalcStatus, hf]
    rw [this] at h
    rw [h] at hbb
    cases hbb

theorem exists_nonfinal_of_calcStatus (l : List Status)
    (h : (CalcStatus l).isFinalized = false) :
    ∃ x ∈ l, x.isFinalized = false := by
  by_contra hall
  push_neg at hall
  have : ∀ x ∈ l, x.isFinalized = true := by
    intro x hx
    have := hall x hx
    simpa using this
  rw [calcStatus_finalized_of_all l this] at h
  cases h

theorem forall_mem_modifyAt {α : Type} {l : List α} {i : Nat} {f : α → α}
    (P : α → Prop)
    (hP : ∀ k (hk : k < l.length), k ≠ i → P l[k])
    (hPi : ∀ (hi : i < l.length), P (f l[i])) :
    ∀ x ∈ modifyAt l i f, P x := by
  intro x hx
  obtain ⟨⟨k, hk⟩, hget⟩ := List.mem_iff_get.mp hx
  have hk2 : k < l.length := by rwa [modifyAt_length] at hk
  by_cases hki : k = i
  · subst hki
    have he := getElem_modifyAt_eq l k f hk2 hk
    rw [← hget]
    simp only [List.get_eq_getElem]
    rw [he]
    exact hPi hk2
  · have he := getElem_modifyAt_ne l i k f hk2 hk hki
    rw [← hget]
    simp only [List.get_eq_getElem]
    rw [he]
    exact hP k hk2 hki

theorem mem_modifyAt_self {α : Type} {l : List α} {i : Nat} {f : α → α}
    (hi : i < l.length) : f l[i] ∈ modifyAt l i f := by
  have h2 : i < (modifyAt l i f).length := by
    rw [modifyAt_length]; exact hi
  have he := getElem_modifyAt_eq l i f hi h2
  rw [← he]
  exact List.getElem_mem h2

theorem mem_statuses_markUnfinished {ops : List OpCode} {st : Status}
    {res : OpResult} {s : Status}
    (h : s ∈ (MarkUnfinishedOps ops st res).map (fun op => op.status)) :
    s = st ∨ (s ∈ ops.map (fun op => op.status) ∧ s.isFinalized = true) := by
  obtain ⟨op, hop, hops⟩ := List.mem_map.mp h
  obtain ⟨op0, hop0, hmk⟩ := List.mem_map.mp hop
  by_cases hf : op0.status.isFinalized
  · right
    rw [← hops, ← hmk]
    simp only [if_pos hf]
    exact ⟨List.mem_map.mpr ⟨op0, hop0, rfl⟩, hf⟩
  · left
    rw [← hops, ← hmk]
    simp [if_neg hf]

theorem marked_status_mem {ops : List OpCode} {st : Status} {res : OpResult}
    (h : ∃ op ∈ ops, op.status.isFinalized = false) :
    st ∈ (MarkUnfinishedOps ops st res).map (fun op => op.status) := by
  obtain ⟨op, hop, hnf⟩ := h
  refine List.mem_map.mpr ⟨{ op with status := st, result := res }, ?_, rfl⟩
  refine List.mem_map.mpr ⟨op, hop, ?_⟩
  simp [hnf]

/-- The debug assertion of `JobQueue.UpdateJobUnlocked`: a job state may
be written to disk only when its end timestamp is set exactly for a
terminal derived status. -/
def updateJobInvariant (j : QueuedJob) : Prop :=
  j.calcStatus.isFinalized = true ↔ j.end_timestamp.isSome = true

theorem invariant_of_nonterminal {j : QueuedJob}
    (hS : j.calcStatus.isFinalized = false) (hE : j.end_timestamp = none) :
    updateJobInvariant j := by
  rw [updateJobInvariant, hS, hE]
  simp

theorem invariant_of_terminal {j : QueuedJob}
    (hS : j.calcStatus.isFinalized = true) (hE : j.end_timestamp.isSome = true) :
    updateJobInvariant j := by
  rw [updateJobInvariant, hS, hE]

theorem end_none_of_invariant {j : QueuedJob} (hinv : updateJobInvariant j)
    (h : j.calcStatus.isFinalized = false) : j.end_timestamp = none := by
  rw [updateJobInvariant] at hinv
  rcases hend : j.end_timestamp with _ | t
  · rfl
  · have h2 : j.calcStatus.isFinalized = true := hinv.mpr (by simp [hend])
    rw [h2] at h
    cases h

theorem forall_mem_of_getElem {α : Type} {l : List α} (P : α → Prop)
    (h : ∀ k (hk : k < l.length), P l[k]) : ∀ x ∈ l, P x := by
  intro x hx
  obtain ⟨⟨k, hk⟩, hget⟩ := List.mem_iff_get.mp hx
  rw [← hget]
  simp only [List.get_eq_getElem]
  exact h k hk

theorem calcStatus_marked_finalized (ops : List OpCode) (st : Status)
    (res : OpResult) (h : st.isFinalized = true) :
    (CalcStatus ((MarkUnfinishedOps ops st res).map
      (fun op => op.status))).isFinalized = true := by
  apply calcStatus_finalized_of_all
  intro s hs
  rcases mem_statuses_markUnfinished hs with h1 | ⟨_, hf⟩
  · rwa [h1]
  · exact hf

theorem calcStatus_marked_not_finalized (job : QueuedJob) (st : Status)
    (res : OpResult) (hst1 : st ≠ Status.error) (hst2 : st ≠ Status.canceled)
    (hst3 : st ≠ Status.success) (hw : job.calcStatus = Status.waiting) :
    (CalcStatus ((MarkUnfinishedOps job.ops st res).map
      (fun op => op.status))).isFinalized = false := by
  have hnb : ∀ x ∈ job.ops.map (fun op => op.status),
      x.isCancelErrorCanceled = false := by
    apply no_break_of_calcStatus
    rw [show CalcStatus (job.ops.map fun op => op.status) = job.calcStatus from rfl,
        hw]
    rfl
  have hexf : ∃ op ∈ job.ops, op.status.isFinalized = false := by
    have h2 := exists_nonfinal_of_calcStatus (job.ops.map fun op => op.status)
      (by rw [show CalcStatus (job.ops.map fun op => op.status) = job.calcStatus
                from rfl, hw]; rfl)
    obtain ⟨x, hx, hxf⟩ := h2
    obtain ⟨op, hop, rfl⟩ := List.mem_map.mp hx
    exact ⟨op, hop, hxf⟩
  apply calcStatus_not_finalized
  · intro s hs
    rcases mem_statuses_markUnfinished hs with h1 | ⟨hmem, hf⟩
    · subst h1; exact ⟨hst1, hst2⟩
    · have hb := hnb s hmem
      cases s <;> simp_all [Status.isFinalized, Status.isCancelErrorCanceled]
  · exact ⟨st, marked_status_mem hexf, hst3⟩

theorem calcStatus_shape_not_finalized (l : List Status) (idx : Nat)
    (hidx : idx < l.length)
    (hpre : ∀ k (hk : k < l.length), k < idx → l[k] = Status.success)
    (hsuf : ∀ k (hk : k < l.length), idx < k →
      l[k] = Status.queued ∨ l[k] = Status.canceling)
    (hat : l[idx] ≠ Status.error ∧ l[idx] ≠ Status.canceled ∧
      l[idx] ≠ Status.success) :
    (CalcStatus l).isFinalized = false := by
  apply calcStatus_not_finalized
  · apply forall_mem_of_getElem
    intro k hk
    rcases Nat.lt_trichotomy k idx with h | h | h
    · rw [hpre k hk h]; exact ⟨by decide, by decide⟩
    · subst h; exact ⟨hat.1, hat.2.1⟩
    · rcases hsuf k hk h with h2 | h2 <;> rw [h2] <;> exact ⟨by decide, by decide⟩
  · exact ⟨l[idx], List.getElem_mem hidx, hat.2.2⟩

/-- `_JobProcessor._MarkWaitlock`: clear the opcode result, move a QUEUED
opcode to WAITING, and stamp the opcode and job start timestamps when
still unset. -/
def MarkWaitlock (now : Timestamp) (job : QueuedJob) (idx : Nat) : QueuedJob :=
  match job.ops[idx]? with
  | none => job
  | some op =>
    { job with
        ops := modifyAt job.ops idx (fun op0 =>
          { op0 with
              result := OpResult.nullResult
              status := if op0.status = Status.queued then Status.waiting
                        else op0.status
              start_timestamp := some (op0.start_timestamp.getD now) })
        start_timestamp :=
          some (job.start_timestamp.getD (op.start_timestamp.getD now)) }

/-- One job of `JobQueue._InspectQueue` at startup: a WAITING job has its
unfinished opcodes reset to QUEUED (for re-enqueueing); a RUNNING or
CANCELING job has them set to ERROR ("Unclean master daemon shutdown")
and is finalized; QUEUED and terminal jobs are left unchanged. -/
def inspectJobStep (now : Timestamp) (job : QueuedJob) : QueuedJob :=
  if job.calcStatus = Status.waiting then
    { job with ops := MarkUnfinishedOps job.ops .queued .nullResult }
  else if job.calcStatus = Status.running ∨ job.calcStatus = Status.canceling then
    QueuedJob.Finalize now
      { job with
          ops := MarkUnfinishedOps job.ops .error
            (.encodedError "Unclean master daemon shutdown") }
  else job

/-- The outcome of `_OpExecCallbacks.NotifyStart`: the cancel or shutdown
exception unwinds without persisting; otherwise the job is persisted with
the opcode RUNNING. -/
inductive CallbackOutcome where
  | cancelRaised
  | shutdownRaised
  | persisted (job : QueuedJob)
deriving DecidableEq, Repr

/-- `_OpExecCallbacks.NotifyStart`: a CANCELING opcode raises the cancel
exception, a queue that stopped accepting jobs raises the shutdown
exception (neither persists); otherwise the opcode becomes RUNNING, its
exec timestamp is stamped, and the job is persisted. -/
def NotifyStart (now : Timestamp) (accepting : Bool) (job : QueuedJob)
    (idx : Nat) : CallbackOutcome :=
  match job.ops[idx]? with
  | none => CallbackOutcome.cancelRaised
  | some op =>
    if op.status = Status.canceling then CallbackOutcome.cancelRaised
    else if accepting = false then CallbackOutcome.shutdownRaised
    else CallbackOutcome.persisted
      { job with
          ops := modifyAt job.ops idx (fun op0 =>
            { op0 with status := Status.running, exec_timestamp := some now }) }

/-- `_OpExecCallbacks._AppendFeedback`: increment the job's log serial,
append the entry to the opcode's log, and persist (without replication). -/
def AppendFeedback (timestamp : Timestamp) (logType logMsg : String)
    (job : QueuedJob) (idx : Nat) : QueuedJob :=
  { job with
      log_serial := job.log_serial + 1
      ops := modifyAt job.ops idx (fun op =>
        { op with log := op.log ++
            [{ serial := job.log_serial + 1, timestamp := timestamp,
               level := logType, message := logMsg }] }) }

/-- `_QueuedJob.ChangePriority`: refuse on finalized or CANCELING jobs;
otherwise set the priority of every QUEUED/WAITING opcode, reporting
whether any opcode was changed (the successful case is the one
`_ModifyJobUnlocked` persists). -/
def QueuedJob.ChangePriority (priority : Int) (job : QueuedJob) :
    (Bool × String) × QueuedJob :=
  let status := job.calcStatus
  if status.isFinalized then
    ((false, "Job " ++ toString job.id ++ " is finished"), job)
  else if status = Status.canceling then
    ((false, "Job " ++ toString job.id ++ " is cancelling"), job)
  else
    let changed := job.ops.any (fun op =>
      !(op.status == Status.running || op.status.isFinalized))
    if changed then
      ((true, "Priorities of pending opcodes for job " ++ toString job.id ++
          " have been changed"),
       { job with ops := job.ops.map (fun op =>
          if op.status == Status.running || op.status.isFinalized then op
          else { op with priority := priority }) })
    else
      ((false, "Job " ++ toString job.id ++ " had no pending opcodes"), job)

theorem map_modifyAt_of_preserve {α β : Type} (g : α → β) (f : α → α) :
    ∀ (l : List α) (i : Nat), (∀ x, g (f x) = g x) →
      (modifyAt l i f).map g = l.map g := by
  intro l
  induction l with
  | nil => intro i h; rfl
  | cons x t ih =>
    intro i h
    cases i with
    | zero => simp [modifyAt, h]
    | succ k => simp [modifyAt, ih k h]

theorem map_map_of_preserve {α β : Type} (g : α → β) (f : α → α) (l : List α)
    (h : ∀ x, g (f x) = g x) : (l.map f).map g = l.map g := by
  rw [List.map_map]
  exact List.map_congr_left (fun x _ => h x)

theorem invariant_congr {j1 j2 : QueuedJob}
    (hs : j2.calcStatus = j1.calcStatus)
    (he : j2.end_timestamp = j1.end_timestamp)
    (hinv : updateJobInvariant j1) : updateJobInvariant j2 := by
  rw [updateJobInvariant, hs, he]
  rw [updateJobInvariant] at hinv
  exact hinv

/-- **C8.**  At every state the queue persists via `UpdateJobUnlocked` —
a freshly constructed job at submission, a job modified by `Cancel`, a
job whose opcode was just moved to WAITING (`_MarkWaitlock`), a job
after the processor stored an executor outcome (`afterExec`), a job
repaired during startup recovery (`inspectJobStep`), a job whose opcode
just flipped to RUNNING in the `NotifyStart` callback, a job with a log
entry appended by the `Feedback` callback, a job whose pending opcode
priorities were changed by `ChangePriority`, and a job after the
processor's lock-timeout priority raise — the end timestamp is set
exactly when the derived job status is terminal. -/
theorem persisted_end_iff_terminal (now : Timestamp) :
    (∀ jobId ops w j, QueuedJob.init jobId ops now w = Except.ok j →
      updateJobInvariant j) ∧
    (∀ job, updateJobInvariant job →
      updateJobInvariant (QueuedJob.Cancel now job).2) ∧
    (∀ job idx (hidx : idx < job.ops.length),
      (∀ k (hk : k < job.ops.length), k < idx →
        job.ops[k].status = Status.success) →
      (∀ k (hk : k < job.ops.length), idx < k →
        job.ops[k].status = Status.queued ∨ job.ops[k].status = Status.canceling) →
      (job.ops[idx].status = Status.queued ∨
        job.ops[idx].status = Status.waiting) →
      updateJobInvariant job →
      updateJobInvariant (MarkWaitlock now job idx)) ∧
    (∀ job idx (hidx : idx < job.ops.length) opStatus res,
      (opStatus = Status.success ∨ opStatus = Status.error ∨
       opStatus = Status.canceling ∨ opStatus = Status.waiting ∨
       opStatus = Status.queued) →
      (∀ k (hk : k < job.ops.length), k < idx →
        job.ops[k].status = Status.success) →
      (∀ k (hk : k < job.ops.length), idx < k →
        job.ops[k].status = Status.queued ∨ job.ops[k].status = Status.canceling) →
      job.ops[idx].status = Status.waiting →
      updateJobInvariant job →
      updateJobInvariant (afterExec now job idx opStatus res).2) ∧
    (∀ job, updateJobInvariant job →
      updateJobInvariant (inspectJobStep now job)) ∧
    (∀ accepting job idx (hidx : idx < job.ops.length) j2,
      (∀ k (hk : k < job.ops.length), k < idx →
        job.ops[k].status = Status.success) →
      (∀ k (hk : k < job.ops.length), idx < k →
        job.ops[k].status = Status.queued ∨ job.ops[k].status = Status.canceling) →
      job.ops[idx].status = Status.waiting →
      updateJobInvariant job →
      NotifyStart now accepting job idx = CallbackOutcome.persisted j2 →
      updateJobInvariant j2) ∧
    (∀ ts lt lm job idx, updateJobInvariant job →
      updateJobInvariant (AppendFeedback ts lt lm job idx)) ∧
    (∀ p job, updateJobInvariant job →
      updateJobInvariant (QueuedJob.ChangePriority p job).2) ∧
    (∀ job idx p, updateJobInvariant job →
      updateJobInvariant
        { job with
            ops := modifyAt job.ops idx
              (fun op => { op with priority := p }) }) := by
  refine ⟨?_, ?_, ?_, ?_, ?_, ?_, ?_, ?_, ?_⟩
  · intro jobId ops w j hok
    rw [QueuedJob.init] at hok
    by_cases he : ops.isEmpty
    · rw [if_pos he] at hok
      cases hok
    · rw [if_neg he] at hok
      have hj : { id := jobId, ops := ops.map OpCode.init, log_serial := 0,
                  received_timestamp := some now, start_timestamp := none,
                  end_timestamp := none, writable := w,
                  archived := false : QueuedJob } = j := by
        injection hok
      subst hj
      apply invariant_of_nonterminal
      · apply calcStatus_not_finalized
        · intro s hs
          obtain ⟨op, hop, hops⟩ := List.mem_map.mp hs
          obtain ⟨inp, hinp, hini⟩ := List.mem_map.mp hop
          rw [← hops, ← hini]
          exact ⟨by simp [OpCode.init], by simp [OpCode.init]⟩
        · cases ops with
          | nil => simp at he
          | cons o t =>
            refine ⟨Status.queued, ?_, by decide⟩
            exact List.mem_map.mpr ⟨OpCode.init o,
              List.mem_map.mpr ⟨o, List.mem_cons_self o t, rfl⟩, rfl⟩
      · rfl
  · intro job hinv
    by_cases hq : job.calcStatus = Status.queued
    · have hc : (QueuedJob.Cancel now job).2 =
          QueuedJob.Finalize now
            { job with
                ops := MarkUnfinishedOps job.ops .canceled
                  (.strMsg "Job canceled by request") } := by
        simp [QueuedJob.Cancel, hq]
      rw [hc]
      apply invariant_of_terminal
      · exact calcStatus_marked_finalized job.ops .canceled _ rfl
      · rfl
    · by_cases hw : job.calcStatus = Status.waiting
      · have hc : (QueuedJob.Cancel now job).2 =
            { job with ops := MarkUnfinishedOps job.ops .canceling .nullResult } := by
          simp [QueuedJob.Cancel, hq, hw]
        rw [hc]
        apply invariant_of_nonterminal
        · exact calcStatus_marked_not_finalized job .canceling _
            (by decide) (by decide) (by decide) hw
        · have h0 : job.end_timestamp = none :=
            end_none_of_invariant hinv (by rw [hw]; rfl)
          exact h0
      · have hc : (QueuedJob.Cancel now job).2 = job := by
          simp [QueuedJob.Cancel, hq, hw]
        rw [hc]
        exact hinv
  · intro job idx hidx hpre hsuf hop hinv
    have hendnone : job.end_timestamp = none := by
      refine end_none_of_invariant hinv ?_
      exact calcStatus_shape_not_finalized (job.ops.map fun op => op.status) idx
        (by rw [List.length_map]; exact hidx)
        (fun k hk hklt => by
          rw [List.getElem_map]
          exact hpre k (by rwa [List.length_map] at hk) hklt)
        (fun k hk hkgt => by
          rw [List.getElem_map]
          exact hsuf k (by rwa [List.length_map] at hk) hkgt)
        (by
          rw [List.getElem_map]
          rcases hop with h | h <;> rw [h] <;>
            exact ⟨by decide, by decide, by decide⟩)
    have hsome : job.ops[idx]? = some job.ops[idx] := List.getElem?_eq_getElem hidx
    simp only [MarkWaitlock, hsome]
    apply invariant_of_nonterminal
    · refine calcStatus_shape_not_finalized
        ((modifyAt job.ops idx (fun op0 =>
          { op0 with
              result := OpResult.nullResult
              status := if op0.status = Status.queued then Status.waiting
                        else op0.status
              start_timestamp := some (op0.start_timestamp.getD now) })).map
          (fun op => op.status)) idx
        (by rw [List.length_map, modifyAt_length]; exact hidx) ?_ ?_ ?_
      · intro k hk hklt
        rw [List.length_map, modifyAt_length] at hk
        rw [List.getElem_map,
            getElem_modifyAt_ne _ idx k _ hk (by rw [modifyAt_length]; exact hk)
              (Nat.ne_of_lt hklt)]
        exact hpre k hk hklt
      · intro k hk hkgt
        rw [List.length_map, modifyAt_length] at hk
        rw [List.getElem_map,
            getElem_modifyAt_ne _ idx k _ hk (by rw [modifyAt_length]; exact hk)
              (Nat.ne_of_gt hkgt)]
        exact hsuf k hk hkgt
      · rw [List.getElem_map,
           getElem_modifyAt_eq job.ops idx _ hidx
             (by rw [modifyAt_length]; exact hidx)]
        rcases hop with h | h <;> simp [h]
    · exact hendnone
  · intro job idx hidx opStatus res hstS hpre hsuf hwait hinv
    have hendnone : job.end_timestamp = none := by
      refine end_none_of_invariant hinv ?_
      exact calcStatus_shape_not_finalized (job.ops.map fun op => op.status) idx
        (by rw [List.length_map]; exact hidx)
        (fun k hk hklt => by
          rw [List.getElem_map]
          exact hpre k (by rwa [List.length_map] at hk) hklt)
        (fun k hk hkgt => by
          rw [List.getElem_map]
          exact hsuf k (by rwa [List.length_map] at hk) hkgt)
        (by
          rw [List.getElem_map, hwait]
          exact ⟨by decide, by decide, by decide⟩)
    rcases hstS with hS | hS | hS | hS | hS
    · subst hS
      by_cases hlast : idx = job.ops.length - 1
      · have hc : (afterExec now job idx Status.success res).2 =
            QueuedJob.Finalize now
              { job with
                  ops := modifyAt
                    (modifyAt job.ops idx
                      (fun op => { op with status := Status.success, result := res }))
                    idx (fun op => { op with end_timestamp := some now }) } := by
          simp [afterExec, hlast]
        rw [hc]
        apply invariant_of_terminal
        · apply calcStatus_finalized_of_all
          intro s hs
          obtain ⟨op1, hop1, hops⟩ := List.mem_map.mp hs
          rw [← hops]
          revert hop1
          refine forall_mem_modifyAt (fun op0 => op0.status.isFinalized = true)
            ?_ ?_ op1
          · intro k hk hki
            rw [modifyAt_length] at hk
            rw [getElem_modifyAt_ne _ idx k _ hk
              (by rw [modifyAt_length]; exact hk) hki]
            rcases Nat.lt_trichotomy k idx with h | h | h
            · rw [hpre k hk h]; rfl
            · exact absurd h hki
            · exact absurd hk (by omega)
          · intro hi
            rw [modifyAt_length] at hi
            rw [getElem_modifyAt_eq job.ops idx _ hi
              (by rw [modifyAt_length]; exact hi)]
            rfl
        · rfl
      · have hc : (afterExec now job idx Status.success res).2 =
            { job with
                ops := modifyAt
                  (modifyAt job.ops idx
                    (fun op => { op with status := Status.success, result := res }))
                  idx (fun op => { op with end_timestamp := some now }) } := by
          simp [afterExec, hlast]
        rw [hc]
        apply invariant_of_nonterminal
        · apply calcStatus_not_finalized
          · intro s hs
            obtain ⟨op1, hop1, hops⟩ := List.mem_map.mp hs
            rw [← hops]
            revert hop1
            refine forall_mem_modifyAt
              (fun op0 => op0.status ≠ Status.error ∧ op0.status ≠ Status.canceled)
              ?_ ?_ op1
            · intro k hk hki
              rw [modifyAt_length] at hk
              rw [getElem_modifyAt_ne _ idx k _ hk
                (by rw [modifyAt_length]; exact hk) hki]
              rcases Nat.lt_trichotomy k idx with h | h | h
              · rw [hpre k hk h]; exact ⟨by decide, by decide⟩
              · exact absurd h hki
              · rcases hsuf k hk h with h2 | h2 <;> rw [h2] <;>
                  exact ⟨by decide, by decide⟩
            · intro hi
              rw [modifyAt_length] at hi
              rw [getElem_modifyAt_eq job.ops idx _ hi
                (by rw [modifyAt_length]; exact hi)]
              exact ⟨by simp, by simp⟩
          · have hidx1 : idx + 1 < job.ops.length := by omega
            have hk2 : idx + 1 < (modifyAt
                (modifyAt job.ops idx
                  (fun op => { op with status := Status.success, result := res }))
                idx (fun op => { op with end_timestamp := some now })).length := by
              rw [modifyAt_length, modifyAt_length]; exact hidx1
            refine ⟨(modifyAt
                (modifyAt job.ops idx
                  (fun op => { op with status := Status.success, result := res }))
                idx (fun op => { op with end_timestamp := some now }))[idx + 1].status,
              List.mem_map.mpr ⟨_, List.getElem_mem hk2, rfl⟩, ?_⟩
            rw [getElem_modifyAt_ne _ idx (idx + 1) _
                  (by rw [modifyAt_length]; exact hidx1) hk2 (by omega),
                getElem_modifyAt_ne _ idx (idx + 1) _ hidx1
                  (by rw [modifyAt_length]; exact hidx1) (by omega)]
            rcases hsuf (idx + 1) hidx1 (by omega) with h2 | h2 <;> rw [h2] <;> decide
        · exact hendnone
    · subst hS
      have hc : (afterExec now job idx Status.error res).2 =
          QueuedJob.Finalize now
            { job with
                ops := MarkUnfinishedOps
                  (modifyAt
                    (modifyAt job.ops idx
                      (fun op => { op with status := Status.error, result := res }))
                    idx (fun op => { op with end_timestamp := some now }))
                  .error (.encodedError "Preceding opcode failed") } := by
        simp [afterExec]
      rw [hc]
      apply invariant_of_terminal
      · exact calcStatus_marked_finalized _ .error _ rfl
      · rfl
    · subst hS
      have hc : (afterExec now job idx Status.canceling res).2 =
          QueuedJob.Finalize now
            { job with
                ops := MarkUnfinishedOps
                  (modifyAt
                    (modifyAt job.ops idx
                      (fun op => { op with status := Status.canceling, result := res }))
                    idx (fun op => { op with end_timestamp := some now }))
                  .canceled (.strMsg "Job canceled by request") } := by
        simp [afterExec]
      rw [hc]
      apply invariant_of_terminal
      · exact calcStatus_marked_finalized _ .canceled _ rfl
      · rfl
    · subst hS
      have hc : (afterExec now job idx Status.waiting res).2 =
          { job with
              ops := modifyAt job.ops idx
                (fun op => { op with status := Status.waiting, result := res }) } := by
        simp [afterExec]
      rw [hc]
      apply invariant_of_nonterminal
      · refine calcStatus_shape_not_finalized
          ((modifyAt job.ops idx
            (fun op => { op with status := Status.waiting, result := res })).map
            (fun op => op.status)) idx
          (by rw [List.length_map, modifyAt_length]; exact hidx) ?_ ?_ ?_
        · intro k hk hklt
          rw [List.length_map, modifyAt_length] at hk
          rw [List.getElem_map,
              getElem_modifyAt_ne _ idx k _ hk (by rw [modifyAt_length]; exact hk)
                (Nat.ne_of_lt hklt)]
          exact hpre k hk hklt
        · intro k hk hkgt
          rw [List.length_map, modifyAt_length] at hk
          rw [List.getElem_map,
              getElem_modifyAt_ne _ idx k _ hk (by rw [modifyAt_length]; exact hk)
                (Nat.ne_of_gt hkgt)]
          exact hsuf k hk hkgt
        · rw [List.getElem_map,
              getElem_modifyAt_eq job.ops idx _ hidx
                (by rw [modifyAt_length]; exact hidx)]
          exact ⟨by simp, by simp, by simp⟩
      · exact hendnone
    · subst hS
      have hc : (afterExec now job idx Status.queued res).2 =
          { job with
              ops := modifyAt job.ops idx
                (fun op => { op with status := Status.queued, result := res }) } := by
        simp [afterExec]
      rw [hc]
      apply invariant_of_nonterminal
      · refine calcStatus_shape_not_finalized
          ((modifyAt job.ops idx
            (fun op => { op with status := Status.queued, result := res })).map
            (fun op => op.status)) idx
          (by rw [List.length_map, modifyAt_length]; exact hidx) ?_ ?_ ?_
        · intro k hk hklt
          rw [List.length_map, modifyAt_length] at hk
          rw [List.getElem_map,
              getElem_modifyAt_ne _ idx k _ hk (by rw [modifyAt_length]; exact hk)
                (Nat.ne_of_lt hklt)]
          exact hpre k hk hklt
        · intro k hk hkgt
          rw [List.length_map, modifyAt_length] at hk
          rw [List.getElem_map,
              getElem_modifyAt_ne _ idx k _ hk (by rw [modifyAt_length]; exact hk)
                (Nat.ne_of_gt hkgt)]
          exact hsuf k hk hkgt
        · rw [List.getElem_map,
              getElem_modifyAt_eq job.ops idx _ hidx
                (by rw [modifyAt_length]; exact hidx)]
          exact ⟨by simp, by simp, by simp⟩
      · exact hendnone
  · intro job hinv
    by_cases hw : job.calcStatus = Status.waiting
    · have hc : inspectJobStep now job =
          { job with ops := MarkUnfinishedOps job.ops .queued .nullResult } := by
        simp [inspectJobStep, hw]
      rw [hc]
      apply invariant_of_nonterminal
      · exact calcStatus_marked_not_finalized job .queued _
          (by decide) (by decide) (by decide) hw
      · have h0 : job.end_timestamp = none :=
          end_none_of_invariant hinv (by rw [hw]; rfl)
        exact h0
    · by_cases hrc : job.calcStatus = Status.running ∨
          job.calcStatus = Status.canceling
      · have hc : inspectJobStep now job =
            QueuedJob.Finalize now
              { job with
                  ops := MarkUnfinishedOps job.ops .error
                    (.encodedError "Unclean master daemon shutdown") } := by
          simp [inspectJobStep, hw, hrc]
        rw [hc]
        apply invariant_of_terminal
        · exact calcStatus_marked_finalized job.ops .error _ rfl
        · rfl
      · have hc : inspectJobStep now job = job := by
          simp [inspectJobStep, hw, hrc]
        rw [hc]
        exact hinv
  · intro accepting job idx hidx j2 hpre hsuf hwait hinv hcall
    have hendnone : job.end_timestamp = none := by
      refine end_none_of_invariant hinv ?_
      exact calcStatus_shape_not_finalized (job.ops.map fun op => op.status) idx
        (by rw [List.length_map]; exact hidx)
        (fun k hk hklt => by
          rw [List.getElem_map]
          exact hpre k (by rwa [List.length_map] at hk) hklt)
        (fun k hk hkgt => by
          rw [List.getElem_map]
          exact hsuf k (by rwa [List.length_map] at hk) hkgt)
        (by
          rw [List.getElem_map, hwait]
          exact ⟨by decide, by decide, by decide⟩)
    have hsome : job.ops[idx]? = some job.ops[idx] :=
      List.getElem?_eq_getElem hidx
    cases accepting with
    | false =>
      have hc : NotifyStart now false job idx =
          CallbackOutcome.shutdownRaised := by
        simp [NotifyStart, hsome, hwait]
      rw [hc] at hcall
      cases hcall
    | true =>
      have hc : NotifyStart now true job idx =
          CallbackOutcome.persisted
            { job with ops := modifyAt job.ops idx (fun op0 =>
                { op0 with status := Status.running,
                           exec_timestamp := some now }) } := by
        simp [NotifyStart, hsome, hwait]
      rw [hc] at hcall
      injection hcall with h2
      subst h2
      apply invariant_of_nonterminal
      · refine calcStatus_shape_not_finalized
          ((modifyAt job.ops idx (fun op0 =>
            { op0 with status := Status.running,
                       exec_timestamp := some now })).map
            (fun op => op.status)) idx
          (by rw [List.length_map, modifyAt_length]; exact hidx) ?_ ?_ ?_
        · intro k hk hklt
          rw [List.length_map, modifyAt_length] at hk
          rw [List.getElem_map,
              getElem_modifyAt_ne _ idx k _ hk (by rw [modifyAt_length]; exact hk)
                (Nat.ne_of_lt hklt)]
          exact hpre k hk hklt
        · intro k hk hkgt
          rw [List.length_map, modifyAt_length] at hk
          rw [List.getElem_map,
              getElem_modifyAt_ne _ idx k _ hk (by rw [modifyAt_length]; exact hk)
                (Nat.ne_of_gt hkgt)]
          exact hsuf k hk hkgt
        · rw [List.getElem_map,
              getElem_modifyAt_eq job.ops idx _ hidx
                (by rw [modifyAt_length]; exact hidx)]
          exact ⟨by simp, by simp, by simp⟩
      · exact hendnone
  · intro ts lt lm job idx hinv
    have hstat : (AppendFeedback ts lt lm job idx).calcStatus = job.calcStatus :=
      congrArg CalcStatus
        (map_modifyAt_of_preserve (fun op => op.status)
          (fun op => { op with log := op.log ++
              [{ serial := job.log_serial + 1, timestamp := ts,
                 level := lt, message := lm }] })
          job.ops idx (fun x => rfl))
    exact invariant_congr hstat rfl hinv
  · intro p job hinv
    by_cases h1 : job.calcStatus.isFinalized
    · have hc : (QueuedJob.ChangePriority p job).2 = job := by
        simp [QueuedJob.ChangePriority, h1]
      rw [hc]
      exact hinv
    · by_cases h2 : job.calcStatus = Status.canceling
      · have hc : (QueuedJob.ChangePriority p job).2 = job := by
          simp [QueuedJob.ChangePriority, h1, h2, Status.isFinalized]
        rw [hc]
        exact hinv
      · by_cases h3 : job.ops.any (fun op =>
            !(op.status == Status.running || op.status.isFinalized))
        · have h3b : ∃ x ∈ job.ops,
              ¬x.status = Status.running ∧ x.status.isFinalized = false := by
            simpa using h3
          have hc : (QueuedJob.ChangePriority p job).2 =
              { job with ops := job.ops.map (fun op =>
                  if op.status == Status.running || op.status.isFinalized then op
                  else { op with priority := p }) } := by
            simp [QueuedJob.ChangePriority, h1, h2, h3b]
          rw [hc]
          have hstat : ({ job with ops := job.ops.map (fun op =>
                if op.status == Status.running || op.status.isFinalized then op
                else { op with priority := p }) } : QueuedJob).calcStatus =
              job.calcStatus :=
            congrArg CalcStatus
              (map_map_of_preserve (fun op => op.status)
                (fun op =>
                  if op.status == Status.running || op.status.isFinalized then op
                  else { op with priority := p }) job.ops
                (fun x => by
                  by_cases hx : (x.status == Status.running ||
                    x.status.isFinalized) = true <;> simp [hx]))
          exact invariant_congr hstat rfl hinv
        · have h3b : ¬∃ x ∈ job.ops,
              ¬x.status = Status.running ∧ x.status.isFinalized = false := by
            simpa using h3
          have hc : (QueuedJob.ChangePriority p job).2 = job := by
            simp [QueuedJob.ChangePriority, h1, h2, h3b]
          rw [hc]
          exact hinv
  · intro job idx p hinv
    have hstat : ({ job with
          ops := modifyAt job.ops idx
            (fun op => { op with priority := p }) } : QueuedJob).calcStatus =
        job.calcStatus :=
      congrArg CalcStatus
        (map_modifyAt_of_preserve (fun op => op.status)
          (fun op => { op with priority := p }) job.ops idx (fun x => rfl))
    exact invariant_congr hstat rfl hinv

/-- Witness for C8: the invariant holds for a freshly submitted
single-opcode job (status QUEUED, end timestamp unset). -/
theorem persisted_end_iff_terminal_witness :
    updateJobInvariant
      { id := 1
        ops := [OpCode.init { priority := some 0, depends := none, payload := "w" }]
        log_serial := 0
        received_timestamp := some (0, 0)
        start_timestamp := none
        end_timestamp := none
        writable := true
        archived := false } := by
  exact (persisted_end_iff_terminal (0, 0)).1 1
    [{ priority := some 0, depends := none, payload := "w" }] true _ rfl

end JQueue
